import Mathlib

/-!
# Embedded HTTP bridge: a shallow embedding of `src/src/extlib/lib_main.cpp`

A `std::string` is a `List Char`: one `Char` stands for one byte (the character
with the same code), so every length below is a length in bytes.  `npos` is
`none`.  The process-wide statics of the translation unit are the fields of
`ServerState`; each entry point takes the state and returns the new one.
-/

namespace HttpBridge

/-! ## Constants -/

/-- Source: `kMaxRequestSize`. -/
def kMaxRequestSize : Nat := 8192

/-- Source: `kMaxQueueSize`. -/
def kMaxQueueSize : Nat := 16

/-- Source: `kMaxMessageSize`. -/
def kMaxMessageSize : Nat := 512

/-- The header terminator searched by `buffer.find("\r\n\r\n")`. -/
def CRLFCRLF : List Char := ['\r', '\n', '\r', '\n']

/-- The literal key of the shared-secret header, as compared in `HandleClient`. -/
def xApiKey : List Char := ['x', '-', 'a', 'p', 'i', '-', 'k', 'e', 'y']

/-- The literal `content-length`, as compared in the framing loop. -/
def contentLengthName : List Char :=
  ['c', 'o', 'n', 't', 'e', 'n', 't', '-', 'l', 'e', 'n', 'g', 't', 'h']

/-- The literal `GET`. -/
def GET : List Char := ['G', 'E', 'T']

/-- The literal `POST`. -/
def POST : List Char := ['P', 'O', 'S', 'T']

/-- The literal `/v1/health`. -/
def pathHealth : List Char := ['/', 'v', '1', '/', 'h', 'e', 'a', 'l', 't', 'h']

/-- The literal `/v1/state`. -/
def pathState : List Char := ['/', 'v', '1', '/', 's', 't', 'a', 't', 'e']

/-- The literal `/v1/message`. -/
def pathMessage : List Char := ['/', 'v', '1', '/', 'm', 'e', 's', 's', 'a', 'g', 'e']

/-- The literal `text`, the key handed to `ExtractJsonString`. -/
def textKey : List Char := ['t', 'e', 'x', 't']

/-- The literal `application/json`. -/
def applicationJson : List Char :=
  ['a', 'p', 'p', 'l', 'i', 'c', 'a', 't', 'i', 'o', 'n', '/', 'j', 's', 'o', 'n']

/-- The response body `{"error":"bad request"}`. -/
def bodyBadRequest : List Char :=
  ['{', '"', 'e', 'r', 'r', 'o', 'r', '"', ':', '"',
   'b', 'a', 'd', ' ', 'r', 'e', 'q', 'u', 'e', 's', 't', '"', '}']

/-- The response body `{"error":"unauthorized"}`. -/
def bodyUnauthorized : List Char :=
  ['{', '"', 'e', 'r', 'r', 'o', 'r', '"', ':', '"',
   'u', 'n', 'a', 'u', 't', 'h', 'o', 'r', 'i', 'z', 'e', 'd', '"', '}']

/-- The response body `{"error":"missing text"}`. -/
def bodyMissingText : List Char :=
  ['{', '"', 'e', 'r', 'r', 'o', 'r', '"', ':', '"',
   'm', 'i', 's', 's', 'i', 'n', 'g', ' ', 't', 'e', 'x', 't', '"', '}']

/-- The response body `{"error":"not found"}`. -/
def bodyNotFound : List Char :=
  ['{', '"', 'e', 'r', 'r', 'o', 'r', '"', ':', '"',
   'n', 'o', 't', ' ', 'f', 'o', 'u', 'n', 'd', '"', '}']

/-- The response body `{"ok":true}`. -/
def bodyOk : List Char := ['{', '"', 'o', 'k', '"', ':', 't', 'r', 'u', 'e', '}']

/-- The default snapshot `{}`. -/
def emptyObject : List Char := ['{', '}']

/-! ## `std::string` primitives -/

/-- `s.find(c)`: the index of the first occurrence of `c`, `none` for `npos`. -/
def findChar (c : Char) : List Char → Option Nat
  | [] => none
  | x :: xs => if x = c then some 0 else (findChar c xs).map (· + 1)

/-- `s.find(c, pos)`: the first index at or after `pos` holding `c`. -/
def findCharFrom (c : Char) (s : List Char) (pos : Nat) : Option Nat :=
  (findChar c (s.drop pos)).map (· + pos)

/-- `s.find(pat)`: the index of the first occurrence of `pat`, `none` for `npos`. -/
def findSub (pat : List Char) : List Char → Option Nat
  | [] => if pat = [] then some 0 else none
  | x :: xs =>
    if pat.isPrefixOf (x :: xs) then some 0 else (findSub pat xs).map (· + 1)

/-- `std::isspace` on an `unsigned char` in the "C" locale:
space, `\t`, `\n`, `\v`, `\f`, `\r`. -/
def isspace (c : Char) : Bool :=
  c.toNat = 32 || (9 ≤ c.toNat && c.toNat ≤ 13)

/-- `std::tolower` on an `unsigned char` in the "C" locale. -/
def tolower (c : Char) : Char :=
  if 65 ≤ c.toNat ∧ c.toNat ≤ 90 then Char.ofNat (c.toNat + 32) else c

/-- Source: `ToLower`. -/
def ToLower (input : List Char) : List Char :=
  input.map tolower

/-- Source: `Trim`: `start` skips leading white space, `end` backs over trailing
white space without crossing `start`, the result is `substr(start, end - start)`. -/
def Trim (input : List Char) : List Char :=
  ((input.dropWhile isspace).reverse.dropWhile isspace).reverse

/-- `std::getline(stream, line)` on the unread rest of an `istringstream`:
`none` when nothing is left (the call fails), else the text before the first
`\n` and the rest after that `\n`. -/
def getline (stream : List Char) : Option (List Char × List Char) :=
  match stream with
  | [] => none
  | _ :: _ =>
    some (stream.takeWhile (fun c => c != '\n'),
          (stream.dropWhile (fun c => c != '\n')).drop 1)

/-- The step `if (!line.empty() && line.back() == '\r') line.pop_back();`. -/
def stripCR (line : List Char) : List Char :=
  if line.getLast? = some '\r' then line.dropLast else line

/-- The low 64 bits: arithmetic on `size_t` and `unsigned long` (LP64). -/
def wrap64 (n : Nat) : Nat := n % 2 ^ 64

/-- `std::strtoul(s, nullptr, 10)` with a 64-bit `unsigned long`: leading white
space is skipped, one optional sign is read, then the longest run of decimal
digits; no digits give 0, a value above `ULONG_MAX` gives `ULONG_MAX`, and a
leading minus negates the value in the unsigned type. -/
def strtoul (s : List Char) : Nat :=
  let s1 := s.dropWhile isspace
  let neg := s1.head? = some '-'
  let s2 := if s1.head? = some '-' ∨ s1.head? = some '+' then s1.drop 1 else s1
  let digits := s2.takeWhile Char.isDigit
  let n := digits.foldl (fun acc d => acc * 10 + (d.toNat - 48)) 0
  if 2 ^ 64 ≤ n then 2 ^ 64 - 1
  else if neg then wrap64 (2 ^ 64 - n)
  else n

/-- The conversion `(int)x` of a `size_t` to a 32-bit `int`. -/
def toInt32 (n : Nat) : Int :=
  if n % 2 ^ 32 < 2 ^ 31 then ((n % 2 ^ 32 : Nat) : Int)
  else ((n % 2 ^ 32 : Nat) : Int) - 2 ^ 32

/-- The text `operator<<` writes for a signed integer. -/
def decimal (n : Int) : List Char :=
  if n < 0 then '-' :: (Nat.repr n.natAbs).toList else (Nat.repr n.natAbs).toList

/-! ## Request parsing -/

/-- Source: `ParseRequestLine`; `none` is the return value `false`, `some (method, path)`
is `true` with the two out-parameters. -/
def ParseRequestLine (line : List Char) : Option (List Char × List Char) :=
  match findChar ' ' line with
  | none => none
  | some first_space =>
    match findCharFrom ' ' line (first_space + 1) with
    | none => none
    | some second_space =>
      some (line.take first_space,
            (line.drop (first_space + 1)).take (second_space - first_space - 1))

/-- How the scan loop of `ExtractJsonString` was left. -/
inductive ScanExit where
  /-- An unescaped `"` was read: `return true` inside the loop. -/
  | quote
  /-- The `break` taken when `result.size() >= kMaxMessageSize`. -/
  | cap
  /-- The loop condition `i < body.size()` failed. -/
  | eof
  deriving DecidableEq, Repr

/-- The `for` loop of `ExtractJsonString` over the bytes after the opening quote,
with the loop variables `escaping` and `result`. -/
def scanValue : List Char → Bool → List Char → ScanExit × List Char
  | [], _, result => (ScanExit.eof, result)
  | c :: cs, escaping, result =>
    if escaping then
      scanValue cs false
        (result ++ [if c = 'n' then '\n' else if c = 't' then '\t' else c])
    else if c = '\\' then scanValue cs true result
    else if c = '"' then (ScanExit.quote, result)
    else if kMaxMessageSize ≤ (result ++ [c]).length then (ScanExit.cap, result ++ [c])
    else scanValue cs false (result ++ [c])

/-- The first half of `ExtractJsonString`: `first_quote`, the index of the quote
that opens the value (the quoted key, then the next colon, then the next quote). -/
def firstQuote (body key : List Char) : Option Nat :=
  let token := ['"'] ++ key ++ ['"']
  match findSub token body with
  | none => none
  | some key_pos =>
    match findCharFrom ':' body (key_pos + token.length) with
    | none => none
    | some colon => findCharFrom '"' body (colon + 1)

/-- Source: `ExtractJsonString`; `none` is the return value `false`, `some v` is
`true` with `*out = v`. -/
def ExtractJsonString (body key : List Char) : Option (List Char) :=
  match firstQuote body key with
  | none => none
  | some first_quote =>
    match scanValue (body.drop (first_quote + 1)) false [] with
    | (ScanExit.quote, result) => some result
    | (_, result) => if result ≠ [] then some result else none

/-- The loop `while (std::getline(header_stream, line))` of the framing step, which
keeps the value of the last `content-length` header; `fuel` bounds the number of
iterations. -/
def contentLengthLoop : Nat → List Char → Nat → Nat
  | 0, _, content_length => content_length
  | fuel + 1, stream, content_length =>
    match getline stream with
    | none => content_length
    | some (line0, rest) =>
      let line := stripCR line0
      match findChar ':' line with
      | none => contentLengthLoop fuel rest content_length
      | some sep =>
        let name := ToLower (Trim (line.take sep))
        let value := Trim (line.drop (sep + 1))
        contentLengthLoop fuel rest
          (if name = contentLengthName then strtoul value else content_length)

/-- The loop `while (std::getline(header_stream, line))` of `HandleClient`, which
keeps the value of the last `x-api-key` header; `fuel` bounds the number of
iterations. -/
def apiKeyLoop : Nat → List Char → List Char → List Char
  | 0, _, api_key_header => api_key_header
  | fuel + 1, stream, api_key_header =>
    match getline stream with
    | none => api_key_header
    | some (line0, rest) =>
      let line := stripCR line0
      match findChar ':' line with
      | none => apiKeyLoop fuel rest api_key_header
      | some sep =>
        let name := ToLower (Trim (line.take sep))
        let value := Trim (line.drop (sep + 1))
        apiKeyLoop fuel rest (if name = xApiKey then value else api_key_header)

/-! ## Framing -/

/-- The variables of the receive loop of `HandleClient`. -/
structure FrameState where
  /-- Source: `buffer`. -/
  buffer : List Char
  /-- Source: `headers_complete`. -/
  headers_complete : Bool
  /-- Source: `header_end`. -/
  header_end : Option Nat
  /-- Source: `content_length`. -/
  content_length : Nat
  deriving DecidableEq, Repr

/-- The variables before the first iteration. -/
def FrameState.init : FrameState :=
  { buffer := [], headers_complete := false, header_end := none, content_length := 0 }

/-- The part of one iteration after `buffer.append`: when the headers were not
complete yet, look for the terminator and, if it is there, read the header block
`buffer.substr(0, header_end + 2)` for `content-length`. -/
def frameHeaders (s : FrameState) : FrameState :=
  if s.headers_complete then s
  else
    match findSub CRLFCRLF s.buffer with
    | none => { s with header_end := none }
    | some header_end =>
      let header_block := s.buffer.take (header_end + 2)
      { s with
        headers_complete := true
        header_end := some header_end
        content_length :=
          contentLengthLoop (header_block.length + 1) header_block s.content_length }

/-- The test `headers_complete && buffer.size() >= body_start + content_length`,
with `body_start = header_end + 4` and the sum taken in `size_t`. -/
def frameDone (s : FrameState) : Bool :=
  match s.headers_complete, s.header_end with
  | true, some header_end =>
    decide (wrap64 (wrap64 (header_end + 4) + s.content_length) ≤ s.buffer.length)
  | _, _ => false

/-- The receive loop of `HandleClient`.  `reads` lists what the successive calls
of `recv` return: a non-empty chunk is that many received bytes (at most
`sizeof(temp) = 1024`), an empty chunk or the end of the list is a result `<= 0`. -/
def recvLoop : List (List Char) → FrameState → FrameState
  | [], s => s
  | chunk :: rest, s =>
    if s.buffer.length < kMaxRequestSize then
      if chunk = [] then s
      else
        let s1 := frameHeaders { s with buffer := s.buffer ++ chunk }
        if frameDone s1 then s1 else recvLoop rest s1
    else s

/-- The `buffer` that the receive loop of `HandleClient` leaves. -/
def recvRequest (reads : List (List Char)) : List Char :=
  (recvLoop reads FrameState.init).buffer

/-! ## Server state and responses -/

/-- Source: `kInvalidSocket` (POSIX). -/
def kInvalidSocket : Int := -1

/-- The statics of `lib_main.cpp`. -/
structure ServerState where
  /-- Source: `sRunning`. -/
  sRunning : Bool
  /-- Source: `sServerThread`, as whether it is joinable. -/
  sServerThread : Bool
  /-- Source: `sSnapshotJson`. -/
  sSnapshotJson : List Char
  /-- Source: `sApiKey`. -/
  sApiKey : List Char
  /-- Source: `sBindAddress`. -/
  sBindAddress : List Char
  /-- Source: `sPort`. -/
  sPort : Int
  /-- Source: `sListenSocket`. -/
  sListenSocket : Int
  /-- Source: `sMessageQueue`, front first. -/
  sMessageQueue : List (List Char)
  /-- Source: `sStartTime`, in ticks of `steady_clock`. -/
  sStartTime : Int
  deriving DecidableEq, Repr

/-- The statics as their initialisers leave them. -/
def ServerState.init : ServerState :=
  { sRunning := false, sServerThread := false, sSnapshotJson := [], sApiKey := [],
    sBindAddress := [], sPort := 0, sListenSocket := kInvalidSocket,
    sMessageQueue := [], sStartTime := 0 }

/-- One call `SendResponse(client, code, body, content_type)`. -/
structure Response where
  /-- The argument `code`. -/
  code : Int
  /-- The argument `body`. -/
  body : List Char
  /-- The argument `content_type`. -/
  content_type : List Char
  deriving DecidableEq, Repr

/-- The request as `HandleClient` holds it once the request line is parsed. -/
structure ParsedRequest where
  /-- Source: `method`. -/
  method : List Char
  /-- Source: `path`. -/
  path : List Char
  /-- Source: `api_key_header`. -/
  api_key_header : List Char
  /-- Source: `body`. -/
  body : List Char
  deriving DecidableEq, Repr

/-- What the parsing part of `HandleClient` ends in. -/
inductive ParseResult where
  /-- `buffer.empty()`: the socket is closed and nothing is sent. -/
  | noData
  /-- One of the two `400` exits. -/
  | badRequest
  /-- Method, path, key header and body are known. -/
  | ok (req : ParsedRequest)
  deriving DecidableEq, Repr

/-- The text `std::getline(header_stream, request_line)` leaves in `request_line`
(empty when the call fails) with a final `\r` removed. -/
def requestLine (header_block : List Char) : List Char :=
  match getline header_block with
  | none => []
  | some (line, _) => stripCR line

/-- What is left of `header_stream` after the request line was read. -/
def headerStream (header_block : List Char) : List Char :=
  match getline header_block with
  | none => []
  | some (_, rest) => rest

/-- The part of `HandleClient` between the receive loop and the auth guard. -/
def parseRequest (buffer : List Char) : ParseResult :=
  if buffer = [] then ParseResult.noData
  else
    match findSub CRLFCRLF buffer with
    | none => ParseResult.badRequest
    | some header_end =>
      let header_block := buffer.take header_end
      let body := if header_end + 4 ≤ buffer.length then buffer.drop (header_end + 4) else []
      match ParseRequestLine (requestLine header_block) with
      | none => ParseResult.badRequest
      | some (method, path) =>
        let header_stream := headerStream header_block
        ParseResult.ok
          { method := method
            path := path
            api_key_header := apiKeyLoop (header_stream.length + 1) header_stream []
            body := body }

/-- Ticks of `steady_clock` in one millisecond (its period is a nanosecond). -/
def ticksPerMs : Int := 1000000

/-- The block of `HandleClient` that stores a message: cut to `kMaxMessageSize`,
drop the front entry when the queue is full, append. -/
def pushMessage (queue : List (List Char)) (message : List Char) : List (List Char) :=
  let message1 :=
    if kMaxMessageSize < message.length then message.take kMaxMessageSize else message
  let queue1 := if kMaxQueueSize ≤ queue.length then queue.drop 1 else queue
  queue1 ++ [message1]

/-- The part of `HandleClient` from the auth guard on: the call of `SendResponse`
it makes and the statics afterwards.  `now` is what `steady_clock::now()` returns. -/
def dispatch (req : ParsedRequest) (now : Int) (st : ServerState) : Response × ServerState :=
  if st.sApiKey ≠ [] ∧ req.api_key_header ≠ st.sApiKey then
    ({ code := 401, body := bodyUnauthorized, content_type := applicationJson }, st)
  else if req.method = GET ∧ req.path = pathHealth then
    let uptime_ms := Int.tdiv (now - st.sStartTime) ticksPerMs
    ({ code := 200
       body := ['{', '"', 'o', 'k', '"', ':', 't', 'r', 'u', 'e', ',',
                '"', 'u', 'p', 't', 'i', 'm', 'e', 'M', 's', '"', ':']
               ++ decimal uptime_ms ++ ['}']
       content_type := applicationJson }, st)
  else if req.method = GET ∧ req.path = pathState then
    let snapshot := if st.sSnapshotJson = [] then emptyObject else st.sSnapshotJson
    ({ code := 200, body := snapshot, content_type := applicationJson }, st)
  else if req.method = POST ∧ req.path = pathMessage then
    match ExtractJsonString req.body textKey with
    | none => ({ code := 400, body := bodyMissingText, content_type := applicationJson }, st)
    | some message =>
      ({ code := 202, body := bodyOk, content_type := applicationJson },
       { st with sMessageQueue := pushMessage st.sMessageQueue message })
  else
    ({ code := 404, body := bodyNotFound, content_type := applicationJson }, st)

/-- Source: `HandleClient`.  `reads` are the results of the successive `recv` calls
on the client socket (see `recvLoop`), `now` the reading of the clock; the result
is the call of `SendResponse` made (`none`: the socket is closed without one) and
the statics afterwards. -/
def HandleClient (reads : List (List Char)) (now : Int) (st : ServerState) :
    Option Response × ServerState :=
  match parseRequest (recvRequest reads) with
  | ParseResult.noData => (none, st)
  | ParseResult.badRequest =>
    (some { code := 400, body := bodyBadRequest, content_type := applicationJson }, st)
  | ParseResult.ok req =>
    let r := dispatch req now st
    (some r.1, r.2)

/-! ## Entry points -/

/-- What the operating system answers to the calls made by `StartServerInternal`. -/
structure StartEnv where
  /-- The result of `socket(AF_INET, SOCK_STREAM, 0)`. -/
  socket_fd : Int
  /-- Whether `inet_pton` returned 1. -/
  inet_pton_ok : Bool
  /-- Whether `bind` returned 0. -/
  bind_ok : Bool
  /-- Whether `listen` returned 0. -/
  listen_ok : Bool
  deriving DecidableEq, Repr

/-- The resources an entry point acquires or releases. -/
inductive SysEvent where
  /-- `socket(...)` returned this handle. -/
  | socketCreated (fd : Int)
  /-- `CLOSE_SOCKET` on this handle. -/
  | socketClosed (fd : Int)
  /-- `std::thread(ServerLoop)` was constructed. -/
  | threadSpawned
  /-- `sServerThread.join()` returned. -/
  | threadJoined
  deriving DecidableEq, Repr

/-- Source: `StartServerInternal` (POSIX branch): the return value, the statics
afterwards and the resources touched, in order. -/
def StartServerInternal (env : StartEnv) (_bind_address : List Char) (_port : Int)
    (st : ServerState) : Bool × ServerState × List SysEvent :=
  if st.sRunning then (true, st, [])
  else if env.socket_fd = kInvalidSocket then (false, st, [])
  else if !env.inet_pton_ok then
    (false, st, [SysEvent.socketCreated env.socket_fd, SysEvent.socketClosed env.socket_fd])
  else if !env.bind_ok then
    (false, st, [SysEvent.socketCreated env.socket_fd, SysEvent.socketClosed env.socket_fd])
  else if !env.listen_ok then
    (false, st, [SysEvent.socketCreated env.socket_fd, SysEvent.socketClosed env.socket_fd])
  else
    (true,
     { st with sListenSocket := env.socket_fd, sRunning := true, sServerThread := true },
     [SysEvent.socketCreated env.socket_fd, SysEvent.threadSpawned])

/-- Source: `StopServerInternal` (POSIX branch). -/
def StopServerInternal (st : ServerState) : ServerState × List SysEvent :=
  if !st.sRunning then (st, [])
  else
    let joined := if st.sServerThread then [SysEvent.threadJoined] else []
    if st.sListenSocket ≠ kInvalidSocket then
      ({ st with sRunning := false, sServerThread := false, sListenSocket := kInvalidSocket },
       joined ++ [SysEvent.socketClosed st.sListenSocket])
    else
      ({ st with sRunning := false, sServerThread := false }, joined)

/-- Source: `http_server_start`.  The three arguments are what `RECOMP_ARG_STR(0)`,
`RECOMP_ARG(s32, 1)` and `RECOMP_ARG_STR(2)` read; the first component is the
value handed to `RECOMP_RETURN`. -/
def http_server_start (env : StartEnv) (bind_address : List Char) (port : Int)
    (api_key : List Char) (st : ServerState) : Int × ServerState × List SysEvent :=
  if port ≤ 0 ∨ 65535 < port then (0, st, [])
  else
    let st1 := { st with sBindAddress := bind_address, sApiKey := api_key, sPort := port }
    let r := StartServerInternal env bind_address port st1
    (if r.1 then 1 else 0, r.2.1, r.2.2)

/-- Source: `http_server_stop`. -/
def http_server_stop (st : ServerState) : ServerState × List SysEvent :=
  StopServerInternal st

/-- Source: `http_server_set_snapshot`; `json` is what `RECOMP_ARG_STR(0)` reads. -/
def http_server_set_snapshot (json : List Char) (st : ServerState) : ServerState :=
  { st with sSnapshotJson := json }

/-- What `http_server_pop_message` hands back to the caller. -/
structure PopResult where
  /-- The value handed to `RECOMP_RETURN`. -/
  ret : Int
  /-- The bytes stored through `MEM_B(out_ptr, i)`, at offsets `0, 1, ...` of the
  caller's buffer, in order. -/
  written : List Char
  deriving DecidableEq, Repr

/-- Source: `http_server_pop_message`; `out_buf_addr` and `max_len` are what
`RECOMP_ARG(PTR(char), 0)` and `RECOMP_ARG(s32, 1)` read. -/
def http_server_pop_message (out_buf_addr : Nat) (max_len : Int) (st : ServerState) :
    PopResult × ServerState :=
  if out_buf_addr = 0 ∨ max_len ≤ 0 then ({ ret := 0, written := [] }, st)
  else
    match st.sMessageQueue with
    | [] => ({ ret := 0, written := [] }, st)
    | front :: rest =>
      let message :=
        if max_len ≤ toInt32 front.length then front.take (max_len - 1).toNat else front
      ({ ret := toInt32 message.length, written := message ++ [Char.ofNat 0] },
       { st with sMessageQueue := rest })

/-! ## Runs of the server and request shapes used in the statements -/

/-- The auth guard of `HandleClient` lets the request through. -/
def authorized (st : ServerState) (req : ParsedRequest) : Bool :=
  decide (st.sApiKey = [] ∨ req.api_key_header = st.sApiKey)

/-- The request read from `reads` is a `POST /v1/message` that passes the auth
guard under the secret `key` and whose `text` field is extracted as `m`. -/
def carries (key : List Char) (reads : List (List Char)) (m : List Char) : Bool :=
  match parseRequest (recvRequest reads) with
  | ParseResult.ok req =>
    decide ((key = [] ∨ req.api_key_header = key) ∧ req.method = POST ∧
      req.path = pathMessage ∧ ExtractJsonString req.body textKey = some m)
  | _ => false

/-- The statics after the accept loop has handled the connections `conns` one
after the other (each with its reads and its clock reading). -/
def handleAll (conns : List (List (List Char) × Int)) (st : ServerState) : ServerState :=
  conns.foldl (fun s c => (HandleClient c.1 c.2 s).2) st

/-- The results of `n` successive calls of `http_server_pop_message`, and the
statics afterwards. -/
def popN (out_buf_addr : Nat) (max_len : Int) :
    Nat → ServerState → List PopResult × ServerState
  | 0, st => ([], st)
  | n + 1, st =>
    let r := http_server_pop_message out_buf_addr max_len st
    let rs := popN out_buf_addr max_len n r.2
    (r.1 :: rs.1, rs.2)

/-- What a pop hands back when the whole message `m` fits: its length, and its
bytes followed by a zero byte. -/
def wholeMessage (m : List Char) : PopResult :=
  { ret := (m.length : Int), written := m ++ [Char.ofNat 0] }

/-- The request line `POST /v1/message HTTP/1.1`, a line break, and the header
name `x-api-key: `. -/
def postHead : List Char :=
  POST ++ [' '] ++ pathMessage ++ [' ', 'H', 'T', 'T', 'P', '/', '1', '.', '1', '\r', '\n']
    ++ xApiKey ++ [':', ' ']

/-- The body `{"text":"text"}`. -/
def textBody (text : List Char) : List Char :=
  ['{', '"', 't', 'e', 'x', 't', '"', ':', '"'] ++ text ++ ['"', '}']

/-- The request `POST /v1/message` with the header `x-api-key: key` and the body
`{"text":"text"}`. -/
def postRequest (key text : List Char) : List Char :=
  postHead ++ key ++ CRLFCRLF ++ textBody text

/-- The key `k1`. -/
def k1 : List Char := ['k', '1']

/-- Seventeen connections, the `i`-th posting the one-letter message number `i`
(`a`, `b`, ...), each delivered by a single read. -/
def seventeenPosts : List (List (List Char) × Int) :=
  (List.range 17).map (fun i => ([postRequest k1 [Char.ofNat (97 + i)]], (0 : Int)))

/-- The seventeen one-letter messages `a` ... `q`. -/
def seventeenMessages : List (List Char) :=
  (List.range 17).map (fun i => [Char.ofNat (97 + i)])

/-- The header block `buffer.substr(0, header_end)` of a buffer that holds the
header terminator (empty when it does not). -/
def headerBlockOf (buffer : List Char) : List Char :=
  match findSub CRLFCRLF buffer with
  | none => []
  | some header_end => buffer.take header_end

/-- The request line `HandleClient` reads from a buffer. -/
def requestLineOf (buffer : List Char) : List Char :=
  requestLine (headerBlockOf buffer)

/-- The value `HandleClient` ends up with in `api_key_header` for a buffer: that of
the last `x-api-key` header line, empty when there is none. -/
def apiKeyHeaderOf (buffer : List Char) : List Char :=
  apiKeyLoop ((headerStream (headerBlockOf buffer)).length + 1)
    (headerStream (headerBlockOf buffer)) []

/-- The body `HandleClient` reads from a buffer. -/
def bodyOf (buffer : List Char) : List Char :=
  match findSub CRLFCRLF buffer with
  | none => []
  | some header_end =>
    if header_end + 4 ≤ buffer.length then buffer.drop (header_end + 4) else []

/-- The key `wrong`. -/
def wrongKey : List Char := ['w', 'r', 'o', 'n', 'g']

/-- The text `hello`. -/
def hello : List Char := ['h', 'e', 'l', 'l', 'o']

/-- The request `GET /v1/state` with the header `x-api-key: key` and no body. -/
def stateRequest (key : List Char) : List Char :=
  GET ++ [' '] ++ pathState ++ [' ', 'H', 'T', 'T', 'P', '/', '1', '.', '1', '\r', '\n']
    ++ xApiKey ++ [':', ' '] ++ key ++ CRLFCRLF

/-- The statics of a server started with the secret `k1`. -/
def runningK1 : ServerState :=
  { ServerState.init with
    sRunning := true
    sServerThread := true
    sApiKey := k1
    sBindAddress := ['1', '2', '7', '.', '0', '.', '0', '.', '1']
    sPort := 6464
    sListenSocket := 3 }

/-- A snapshot value, `{"day":1}`. -/
def sampleSnapshot : List Char := ['{', '"', 'd', 'a', 'y', '"', ':', '1', '}']

/-- The text value after escape decoding, as the specification describes it, with
no size cap: from the byte after the opening quote, a backslash makes the next
byte stand for itself (`n` for a line feed, `t` for a tab), and the value ends at
the first unescaped double quote or at the end of the body.  `escaping` tells
whether the previous byte was an unescaped backslash. -/
def decodeFrom : List Char → Bool → List Char
  | [], _ => []
  | c :: cs, true =>
    (if c = 'n' then '\n' else if c = 't' then '\t' else c) :: decodeFrom cs false
  | c :: cs, false =>
    if c = '\\' then decodeFrom cs true
    else if c = '"' then []
    else c :: decodeFrom cs false

/-- The decoded value of the raw text that follows an opening quote. -/
def decodeValue (raw : List Char) : List Char :=
  decodeFrom raw false

/-- A raw value of 511 letters `a`, the escape `\n`, and the letters `b`, `c`: its
decoded form has 514 bytes, with the decoded escape as byte 512. -/
def longEscaped : List Char :=
  List.replicate 511 'a' ++ ['\\', 'n', 'b', 'c']

/-- The key `k2`. -/
def k2 : List Char := ['k', '2']

/-- An operating system on which every call of `StartServerInternal` succeeds and
`socket` hands out the handle 4. -/
def okEnv : StartEnv :=
  { socket_fd := 4, inet_pton_ok := true, bind_ok := true, listen_ok := true }

/-- The address `0.0.0.0`. -/
def anyAddress : List Char := ['0', '.', '0', '.', '0', '.', '0']

/-- The body `{"msg":"hi"}`, which has no `text` key. -/
def msgBody : List Char := ['{', '"', 'm', 's', 'g', '"', ':', '"', 'h', 'i', '"', '}']

/-- The request `POST /v1/message` with the header `x-api-key: key` and the body
`{"msg":"hi"}`. -/
def postMsgRequest (key : List Char) : List Char :=
  postHead ++ key ++ CRLFCRLF ++ msgBody

/-- The request `GET /v1/unknown` with the header `x-api-key: key`. -/
def unknownRequest (key : List Char) : List Char :=
  GET ++ [' ', '/', 'v', '1', '/', 'u', 'n', 'k', 'n', 'o', 'w', 'n',
          ' ', 'H', 'T', 'T', 'P', '/', '1', '.', '1', '\r', '\n']
    ++ xApiKey ++ [':', ' '] ++ key ++ CRLFCRLF

/-- Header lines on the wire, each preceded by the line break that ends the line
before it. -/
def headerLines : List (List Char) → List Char
  | [] => []
  | h :: hs => '\r' :: '\n' :: (h ++ headerLines hs)

/-- A request on the wire: the request line, the header lines, the header
terminator and the body. -/
def buildRequest (request_line : List Char) (headers : List (List Char))
    (body : List Char) : List Char :=
  request_line ++ headerLines headers ++ CRLFCRLF ++ body

/-- A header line that `HandleClient` reads as an `x-api-key` header: it has a
colon, and the text before the first colon, trimmed and lower-cased, is the name. -/
def isApiKeyLine (line : List Char) : Bool :=
  match findChar ':' line with
  | none => false
  | some sep => decide (ToLower (Trim (line.take sep)) = xApiKey)

/-- The request line `GET /v1/state HTTP/1.1`. -/
def stateRequestLine : List Char :=
  GET ++ [' '] ++ pathState ++ [' ', 'H', 'T', 'T', 'P', '/', '1', '.', '1']

/-- The header line `Host: mm`. -/
def hostLine : List Char := ['H', 'o', 's', 't', ':', ' ', 'm', 'm']

/-- The header line `X-Api-Key: wrong`. -/
def wrongKeyLine : List Char := ['X', '-', 'A', 'p', 'i', '-', 'K', 'e', 'y', ':', ' '] ++ wrongKey

/-- The statics of a server started with an empty secret. -/
def runningOpen : ServerState :=
  { runningK1 with sApiKey := [] }

/-- The request `get /v1/health`, the method in lower case, with the header
`x-api-key: key`. -/
def lowerCaseHealthRequest (key : List Char) : List Char :=
  ['g', 'e', 't', ' '] ++ pathHealth
    ++ [' ', 'H', 'T', 'T', 'P', '/', '1', '.', '1', '\r', '\n']
    ++ xApiKey ++ [':', ' '] ++ key ++ CRLFCRLF

/-- The first line of a received buffer: the bytes before the first line feed
(a carriage return before that line feed is still part of it). -/
def firstLine (buffer : List Char) : List Char :=
  buffer.takeWhile (fun c => c != '\n')

/-- A buffer without header terminator: `GET /v1/state HTTP/1.1` and one line break. -/
def unterminatedRequest : List Char :=
  stateRequestLine ++ ['\r', '\n']

/-- A framed buffer whose request line `GET/v1/state HTTP/1.1` has one space only,
with a header `x-api-key: k1`. -/
def oneSpaceRequest : List Char :=
  GET ++ pathState ++ [' ', 'H', 'T', 'T', 'P', '/', '1', '.', '1', '\r', '\n']
    ++ xApiKey ++ [':', ' '] ++ k1 ++ CRLFCRLF

/-- The body `{"text":"abc`, cut off before the closing quote. -/
def cutOffBody : List Char :=
  ['{', '"', 't', 'e', 'x', 't', '"', ':', '"', 'a', 'b', 'c']

/-- The body `{"text":"`, cut off right after the opening quote. -/
def cutOffEmptyBody : List Char :=
  ['{', '"', 't', 'e', 'x', 't', '"', ':', '"']

/-- Every byte of the text preceded by a backslash. -/
def escapeAll : List Char → List Char
  | [] => []
  | c :: cs => '\\' :: c :: escapeAll cs

/-- The body `{"text":"\a\a...\a"}` with 513 escaped letters `a`. -/
def escapedBody : List Char :=
  textBody (escapeAll (List.replicate 513 'a'))

/-! ## The response writer -/

/-- The reason phrase `SendResponse` picks: `reason` starts as `OK` and the four
`if` statements overwrite it in turn. -/
def reasonPhrase (code : Int) : List Char :=
  let r0 : List Char := ['O', 'K']
  let r1 := if code = 400 then ['B', 'a', 'd', ' ', 'R', 'e', 'q', 'u', 'e', 's', 't'] else r0
  let r2 := if code = 401 then ['U', 'n', 'a', 'u', 't', 'h', 'o', 'r', 'i', 'z', 'e', 'd'] else r1
  let r3 := if code = 404 then ['N', 'o', 't', ' ', 'F', 'o', 'u', 'n', 'd'] else r2
  let r4 :=
    if code = 500 then
      ['I', 'n', 't', 'e', 'r', 'n', 'a', 'l', ' ', 'S', 'e', 'r', 'v', 'e', 'r', ' ',
       'E', 'r', 'r', 'o', 'r']
    else r3
  r4

/-- The line break `\r\n`. -/
def CRLF : List Char := ['\r', '\n']

/-- The `payload` that `SendResponse` builds in its `ostringstream`. -/
def responsePayload (code : Int) (body content_type : List Char) : List Char :=
  ['H', 'T', 'T', 'P', '/', '1', '.', '1', ' '] ++ decimal code ++ [' '] ++ reasonPhrase code
    ++ CRLF
    ++ ['C', 'o', 'n', 't', 'e', 'n', 't', '-', 'T', 'y', 'p', 'e', ':', ' '] ++ content_type
    ++ CRLF
    ++ ['C', 'o', 'n', 't', 'e', 'n', 't', '-', 'L', 'e', 'n', 'g', 't', 'h', ':', ' ']
    ++ (Nat.repr body.length).toList ++ CRLF
    ++ ['C', 'o', 'n', 'n', 'e', 'c', 't', 'i', 'o', 'n', ':', ' ', 'c', 'l', 'o', 's', 'e']
    ++ CRLF ++ CRLF
    ++ body

/-- The first line of a payload, without its line break. -/
def statusLine (payload : List Char) : List Char :=
  payload.takeWhile (fun c => c != '\r')

/-- The header fields and the blank line that follow the status line, for a content
type and a body of `n` bytes, as the specification lists them. -/
def specHeaders (content_type : List Char) (n : Nat) : List Char :=
  ['C', 'o', 'n', 't', 'e', 'n', 't', '-', 'T', 'y', 'p', 'e', ':', ' '] ++ content_type
    ++ CRLF
    ++ ['C', 'o', 'n', 't', 'e', 'n', 't', '-', 'L', 'e', 'n', 'g', 't', 'h', ':', ' ']
    ++ (Nat.repr n).toList ++ CRLF
    ++ ['C', 'o', 'n', 'n', 'e', 'c', 't', 'i', 'o', 'n', ':', ' ', 'c', 'l', 'o', 's', 'e']
    ++ CRLF ++ CRLF

/-- The whole number of milliseconds between the instant `sStartTime` recorded by
the accept loop and the instant `now`. -/
def uptimeMs (st : ServerState) (now : Int) : Nat :=
  (now - st.sStartTime).toNat / 1000000

/-- The body `{"ok":true,"uptimeMs":<e>}` for a number `e` written in decimal. -/
def healthBody (e : Nat) : List Char :=
  ['{', '"', 'o', 'k', '"', ':', 't', 'r', 'u', 'e', ',',
   '"', 'u', 'p', 't', 'i', 'm', 'e', 'M', 's', '"', ':'] ++ (Nat.repr e).toList ++ ['}']

/-- The first statement of `ServerLoop`: `sStartTime = steady_clock::now()`. -/
def ServerLoop_begin (now : Int) (st : ServerState) : ServerState :=
  { st with sStartTime := now }

/-- The request `GET /v1/health` with the header `x-api-key: key`. -/
def healthRequest (key : List Char) : List Char :=
  GET ++ [' '] ++ pathHealth ++ [' ', 'H', 'T', 'T', 'P', '/', '1', '.', '1', '\r', '\n']
    ++ xApiKey ++ [':', ' '] ++ key ++ CRLFCRLF

/-- A read of `n` bytes, all the letter `a`. -/
def fill (n : Nat) : List Char :=
  List.replicate n 'a'

/-- Eight reads without any line break: seven of 1024 bytes and one of 1023 bytes. -/
def eightReads : List (List Char) :=
  [fill 1024, fill 1024, fill 1024, fill 1024, fill 1024, fill 1024, fill 1024, fill 1023]

/-- The eight reads of `eightReads` followed by one more read of 1024 bytes. -/
def nineReads : List (List Char) :=
  eightReads ++ [fill 1024]

/-- The lines that the loop `while (std::getline(stream, line))` reads from a
stream, in order; `fuel` bounds their number. -/
def getlines : Nat → List Char → List (List Char)
  | 0, _ => []
  | fuel + 1, stream =>
    match getline stream with
    | none => []
    | some (line, rest) => line :: getlines fuel rest

/-- The header lines `HandleClient` reads from a buffer after the request line,
each with its final `\r` removed. -/
def headerLinesOf (buffer : List Char) : List (List Char) :=
  (getlines ((headerStream (headerBlockOf buffer)).length + 1)
    (headerStream (headerBlockOf buffer))).map stripCR

/-- The value of a header line: the text after the first colon, trimmed (empty for
a line without colon). -/
def headerValue (line : List Char) : List Char :=
  match findChar ':' line with
  | none => []
  | some sep => Trim (line.drop (sep + 1))

/-- The value of the last line read as an `x-api-key` header, empty when there is
none. -/
def lastApiKeyValue (lines : List (List Char)) : List Char :=
  match (lines.filter isApiKeyLine).getLast? with
  | none => []
  | some line => headerValue line

/-- The header line `X-API-KEY :   k1  `, in upper case and with white space around
name and value. -/
def paddedKeyLine : List Char :=
  ['X', '-', 'A', 'P', 'I', '-', 'K', 'E', 'Y', ' ', ':', ' ', ' ', ' ', 'k', '1', ' ', ' ']

/-- The header line `x-api-key: wrong`. -/
def lowerWrongKeyLine : List Char := xApiKey ++ [':', ' '] ++ wrongKey

/-- How the write loop of `SendResponse` was left. -/
inductive SendExit where
  /-- The loop condition `remaining > 0` failed: everything was handed over. -/
  | done
  /-- A call of `send` returned a value `<= 0`: the `break`. -/
  | aborted
  /-- The model has no result left for the next call of `send`. -/
  | pending
  deriving DecidableEq, Repr

/-- What the write loop of `SendResponse` did. -/
structure SendRun where
  /-- How the loop was left. -/
  exit : SendExit
  /-- The number of calls of `send` made. -/
  calls : Nat
  /-- The bytes each successful call took over, in order of the calls. -/
  taken : List (List Char)
  deriving DecidableEq, Repr

/-- The subtraction `remaining -= (size_t)sent` in `size_t`. -/
def subSize (remaining sent : Nat) : Nat :=
  wrap64 (remaining + (2 ^ 64 - sent % 2 ^ 64))

/-- The write loop of `SendResponse`.  `results` lists what the successive calls of
`send` return; `data` is the payload from the pointer `data` on and `remaining`
the counter of the same name.  A call that returns `sent > 0` took over the first
`sent` bytes at `data`. -/
def sendLoop : List Int → List Char → Nat → SendRun
  | [], _, remaining =>
    if remaining = 0 then { exit := SendExit.done, calls := 0, taken := [] }
    else { exit := SendExit.pending, calls := 0, taken := [] }
  | sent :: results, data, remaining =>
    if remaining = 0 then { exit := SendExit.done, calls := 0, taken := [] }
    else if sent ≤ 0 then { exit := SendExit.aborted, calls := 1, taken := [] }
    else
      let run := sendLoop results (data.drop sent.toNat) (subSize remaining sent.toNat)
      { exit := run.exit, calls := run.calls + 1, taken := data.take sent.toNat :: run.taken }

/-- Source: `SendResponse`: the payload is built and handed to the write loop. -/
def SendResponse (results : List Int) (code : Int) (body content_type : List Char) : SendRun :=
  sendLoop results (responsePayload code body content_type)
    (responsePayload code body content_type).length

/-- Every call the write loop makes on `remaining` bytes returns a value between 1
and the number of bytes still to send. -/
def GoodResults : List Int → Nat → Prop
  | [], _ => True
  | sent :: results, remaining =>
    remaining = 0 ∨
      (1 ≤ sent ∧ sent ≤ (remaining : Int) ∧ GoodResults results (remaining - sent.toNat))

/-- Results for the calls of `send`: 100 bytes taken, then 24, then (never asked
for) 122 times a zero. -/
def twoWrites : List Int :=
  [100, 24] ++ List.replicate 122 0

/-- Results for the calls of `send`: 100 bytes taken, then the error value -1, then
a result that is never asked for. -/
def brokenWrite : List Int :=
  [100, -1, 24]

/-- The escaped form of one byte, as the claim describes it: a double quote, a
backslash, a line feed and a tab become a backslash followed by `"`, `\`, `n`
and `t`; every other byte is kept. -/
def encByte (c : Char) : List Char :=
  if c = '"' then ['\\', '"']
  else if c = '\\' then ['\\', '\\']
  else if c = '\n' then ['\\', 'n']
  else if c = '\t' then ['\\', 't']
  else [c]

/-- The escaped form of a byte string: every byte replaced by its escaped form. -/
def enc : List Char → List Char
  | [] => []
  | c :: cs => encByte c ++ enc cs

/-- A text with all four special bytes: `a"b\c`, a line feed, `n`, a tab, `t`. -/
def specialText : List Char :=
  ['a', '"', 'b', '\\', 'c', '\n', 'n', '\t', 't']

/-- A header line that the framing step of `HandleClient` reads as a
`content-length` header: it has a colon, and the text before the first colon,
trimmed and lower-cased, is the name. -/
def isContentLengthLine (line : List Char) : Bool :=
  match findChar ':' line with
  | none => false
  | some sep => decide (ToLower (Trim (line.take sep)) = contentLengthName)

/-- The length a `content-length` line declares: `strtoul` of its trimmed value. -/
def declaredLength (line : List Char) : Nat :=
  strtoul (headerValue line)

/-- One iteration of the header loop of the framing step on a line whose final
`\r` was removed. -/
def contentLengthStep (content_length : Nat) (line : List Char) : Nat :=
  if isContentLengthLine line then declaredLength line else content_length

/-- The Content-Length headers of a buffer: the header lines after the request
line that are read as a `content-length` header. -/
def contentLengthHeaders (buffer : List Char) : List (List Char) :=
  (headerLinesOf buffer).filter isContentLengthLine

/-- The framing variables agree with a stream whose terminator is at `he` and whose
Content-Length header declares `cl`: either the headers are not complete and
`content_length` is still 0, or they are complete with `header_end = he` and
`content_length = cl`. -/
def framingOk (he cl : Nat) (s : FrameState) : Prop :=
  (s.headers_complete = false ∧ s.content_length = 0)
  ∨ (s.headers_complete = true ∧ s.header_end = some he ∧ s.content_length = cl)

instance (he cl : Nat) (s : FrameState) : Decidable (framingOk he cl s) := by
  unfold framingOk
  infer_instance

/-- The request line `POST /v1/message HTTP/1.1`. -/
def postMessageLine : List Char :=
  POST ++ [' '] ++ pathMessage ++ [' ', 'H', 'T', 'T', 'P', '/', '1', '.', '1']

/-- The header line `Content-Length: 16`. -/
def contentLength16Line : List Char :=
  ['C', 'o', 'n', 't', 'e', 'n', 't', '-', 'L', 'e', 'n', 'g', 't', 'h', ':', ' ', '1', '6']

/-- The request `POST /v1/message` with the headers `Host: mm` and
`Content-Length: 16` and the 16-byte body `{"text":"hello"}`. -/
def framedPost : List Char :=
  buildRequest postMessageLine [hostLine, contentLength16Line] (textBody hello)

/-- A stream cut into reads of the given sizes, what is left making the last read. -/
def cutAt : List Nat → List Char → List (List Char)
  | [], stream => if stream = [] then [] else [stream]
  | n :: ns, stream => stream.take n :: cutAt ns (stream.drop n)

/-- The request `framedPost` delivered in three reads of 30, 26 and 19 bytes; the
second read ends inside the header terminator. -/
def threeReads : List (List Char) := cutAt [30, 26] framedPost

/-- The first 45 bytes of a request `GET /v1/state` with the header `Host: mm`
followed by an `x-api-key` header: everything up to the value of the key. -/
def longKeyHead : List Char :=
  stateRequestLine ++ headerLines [hostLine] ++ ['\r', '\n'] ++ xApiKey ++ [':', ' ']

/-- The header line `x-api-key: aaa...a` with a value of 9171 bytes. -/
def longKeyLine : List Char := xApiKey ++ [':', ' '] ++ fill 9171

/-- The request `GET /v1/state` with the headers `Host: mm` and `longKeyLine`,
9220 bytes in all, delivered in reads of 1024 bytes and a last read of 4 bytes
that holds the header terminator. -/
def longKeyReads : List (List Char) :=
  [longKeyHead ++ fill 979, fill 1024, fill 1024, fill 1024, fill 1024, fill 1024,
   fill 1024, fill 1024, fill 1024, CRLFCRLF]

/-! # Theorems -/

/-! ## Routing lemmas -/

theorem HandleClient_of_parse {reads : List (List Char)} {req : ParsedRequest}
    (h : parseRequest (recvRequest reads) = ParseResult.ok req) (now : Int)
    (st : ServerState) :
    HandleClient reads now st = (some (dispatch req now st).1, (dispatch req now st).2) := by
  simp [HandleClient, h]

theorem dispatch_post {req : ParsedRequest} {st : ServerState} {m : List Char}
    (hauth : st.sApiKey = [] ∨ req.api_key_header = st.sApiKey)
    (hm : req.method = POST) (hp : req.path = pathMessage)
    (hx : ExtractJsonString req.body textKey = some m) (now : Int) :
    dispatch req now st =
      ({ code := 202, body := bodyOk, content_type := applicationJson },
       { st with sMessageQueue := pushMessage st.sMessageQueue m }) := by
  have h1 : ¬ (st.sApiKey ≠ [] ∧ req.api_key_header ≠ st.sApiKey) := by
    rcases hauth with h | h
    · simp [h]
    · simp [h]
  have h2 : ¬ (POST = GET) := by decide
  simp [dispatch, h1, hm, hp, hx, h2]

/-! ## The message queue -/

theorem pushMessage_short (q : List (List Char)) (m : List Char)
    (hq : q.length ≤ kMaxQueueSize) (hm : m.length ≤ kMaxMessageSize) :
    pushMessage q m = (q ++ [m]).drop ((q ++ [m]).length - kMaxQueueSize) := by
  unfold pushMessage
  have h1 : ¬ (kMaxMessageSize < m.length) := by omega
  simp only [h1, if_false]
  by_cases h : kMaxQueueSize ≤ q.length
  · have hl : q.length = kMaxQueueSize := by omega
    simp only [h, if_true, List.length_append, List.length_singleton, hl]
    have : kMaxQueueSize + 1 - kMaxQueueSize = 1 := by omega
    rw [this]
    cases q with
    | nil => simp [kMaxQueueSize] at hl
    | cons a t => simp
  · have : (q ++ [m]).length - kMaxQueueSize = 0 := by
      simp only [List.length_append, List.length_singleton]; omega
    rw [this]
    simp [h]

theorem pushMessage_length_le (q : List (List Char)) (m : List Char)
    (hq : q.length ≤ kMaxQueueSize) :
    (pushMessage q m).length ≤ kMaxQueueSize := by
  unfold pushMessage
  by_cases h : kMaxQueueSize ≤ q.length
  · simp only [h, if_true, List.length_append, List.length_drop, List.length_singleton]
    unfold kMaxQueueSize at *
    omega
  · simp only [h, if_false, List.length_append, List.length_singleton]
    omega

theorem foldl_pushMessage (ms q : List (List Char))
    (hq : q.length ≤ kMaxQueueSize) (hm : ∀ m ∈ ms, m.length ≤ kMaxMessageSize) :
    ms.foldl pushMessage q = (q ++ ms).drop ((q ++ ms).length - kMaxQueueSize) := by
  induction ms generalizing q with
  | nil =>
    have : q.length - kMaxQueueSize = 0 := by omega
    simp [this]
  | cons m ms ih =>
    have hm1 : m.length ≤ kMaxMessageSize := hm m (List.mem_cons_self _ _)
    have hm2 : ∀ x ∈ ms, x.length ≤ kMaxMessageSize :=
      fun x hx => hm x (List.mem_cons_of_mem _ hx)
    rw [List.foldl_cons, ih _ (pushMessage_length_le q m hq) hm2,
      pushMessage_short q m hq hm1]
    have hk : (q ++ [m]).length - kMaxQueueSize ≤ (q ++ [m]).length := Nat.sub_le _ _
    rw [← List.drop_append_of_le_length hk, List.drop_drop]
    have e : q ++ [m] ++ ms = q ++ m :: ms := by simp
    rw [e]
    congr 1
    simp only [List.length_append, List.length_drop, List.length_cons, List.length_singleton,
      List.length_nil]
    unfold kMaxQueueSize at *
    omega

theorem HandleClient_of_carries {key : List Char} {reads : List (List Char)} {m : List Char}
    (h : carries key reads m = true) (now : Int) (st : ServerState) (hk : st.sApiKey = key) :
    HandleClient reads now st =
      (some { code := 202, body := bodyOk, content_type := applicationJson },
       { st with sMessageQueue := pushMessage st.sMessageQueue m }) := by
  unfold carries at h
  split at h
  · next req hreq =>
    simp only [decide_eq_true_eq] at h
    obtain ⟨ha, hm, hp, hx⟩ := h
    rw [HandleClient_of_parse hreq, dispatch_post (hk ▸ ha) hm hp hx]
  · exact absurd h (by simp)

theorem handleAll_of_carries (conns : List (List (List Char) × Int)) (ms : List (List Char))
    (key : List Char) (st : ServerState) (hk : st.sApiKey = key)
    (h : List.Forall₂ (fun c m => carries key c.1 m = true) conns ms) :
    handleAll conns st = { st with sMessageQueue := ms.foldl pushMessage st.sMessageQueue } := by
  induction h generalizing st with
  | nil => rfl
  | @cons c m conns ms hc _ ih =>
    unfold handleAll
    rw [List.foldl_cons, HandleClient_of_carries hc c.2 st hk]
    exact ih _ hk

theorem toInt32_small (n : Nat) (h : n < 2 ^ 31) : toInt32 n = (n : Int) := by
  unfold toInt32
  have h1 : n % 2 ^ 32 = n := Nat.mod_eq_of_lt (by omega)
  rw [h1, if_pos h]

theorem pop_whole (out_buf_addr : Nat) (max_len : Int) (st : ServerState)
    (m : List Char) (rest : List (List Char)) (hout : out_buf_addr ≠ 0)
    (hq : st.sMessageQueue = m :: rest) (hlen : m.length < 2 ^ 31)
    (hmax : (m.length : Int) < max_len) :
    http_server_pop_message out_buf_addr max_len st =
      (wholeMessage m, { st with sMessageQueue := rest }) := by
  unfold http_server_pop_message
  have h0 : ¬ (out_buf_addr = 0 ∨ max_len ≤ 0) := by omega
  have h1 : ¬ (max_len ≤ toInt32 m.length) := by rw [toInt32_small _ hlen]; omega
  simp only [h0, if_false, hq, h1]
  simp [wholeMessage, toInt32_small _ hlen]

theorem popN_all (out_buf_addr : Nat) (max_len : Int) (hout : out_buf_addr ≠ 0)
    (q : List (List Char)) (st : ServerState) (hq : st.sMessageQueue = q)
    (hlen : ∀ m ∈ q, m.length < 2 ^ 31) (hmax : ∀ m ∈ q, (m.length : Int) < max_len) :
    popN out_buf_addr max_len q.length st =
      (q.map wholeMessage, { st with sMessageQueue := [] }) := by
  induction q generalizing st with
  | nil => simp [popN, ← hq]
  | cons m rest ih =>
    simp only [List.length_cons, popN, List.map_cons]
    rw [pop_whole out_buf_addr max_len st m rest hout hq
      (hlen m (List.mem_cons_self _ _)) (hmax m (List.mem_cons_self _ _))]
    simp only
    rw [ih _ rfl (fun x hx => hlen x (List.mem_cons_of_mem _ hx))
      (fun x hx => hmax x (List.mem_cons_of_mem _ hx))]

theorem forall₂_carries_of_zip (key : List Char) (conns : List (List (List Char) × Int))
    (ms : List (List Char)) (hlen : conns.length = ms.length)
    (h : ∀ p ∈ conns.zip ms, carries key p.1.1 p.2 = true) :
    List.Forall₂ (fun c m => carries key c.1 m = true) conns ms := by
  rw [List.forall₂_iff_zip]
  exact ⟨hlen, fun {a b} hab => h (a, b) hab⟩

/-- Claim C1.  Starting from an empty queue, after any sequence of accepted
`POST /v1/message` requests carrying the messages `ms` (each at most 512 bytes, no
pop in between) the queue holds exactly the last `min N 16` of them in arrival
order, and that many successive pops with a buffer larger than every message
return them oldest first, whole, and leave the queue empty. -/
theorem queue_keeps_last_sixteen (st : ServerState)
    (conns : List (List (List Char) × Int)) (ms : List (List Char))
    (out_buf_addr : Nat) (max_len : Int)
    (hempty : st.sMessageQueue = [])
    (hcar : List.Forall₂ (fun c m => carries st.sApiKey c.1 m = true) conns ms)
    (hsize : ∀ m ∈ ms, m.length ≤ kMaxMessageSize)
    (hout : out_buf_addr ≠ 0)
    (hmax : ∀ m ∈ ms, (m.length : Int) < max_len) :
    (handleAll conns st).sMessageQueue = ms.drop (ms.length - kMaxQueueSize)
    ∧ (handleAll conns st).sMessageQueue.length = min ms.length kMaxQueueSize
    ∧ (popN out_buf_addr max_len (min ms.length kMaxQueueSize) (handleAll conns st)).1
        = (ms.drop (ms.length - kMaxQueueSize)).map wholeMessage
    ∧ (popN out_buf_addr max_len (min ms.length kMaxQueueSize)
        (handleAll conns st)).2.sMessageQueue = [] := by
  have hq : (handleAll conns st).sMessageQueue = ms.drop (ms.length - kMaxQueueSize) := by
    rw [handleAll_of_carries conns ms st.sApiKey st rfl hcar]
    simp only
    rw [foldl_pushMessage ms st.sMessageQueue (by simp [hempty]) hsize, hempty]
    simp
  have hl : (ms.drop (ms.length - kMaxQueueSize)).length = min ms.length kMaxQueueSize := by
    rw [List.length_drop]; omega
  have hsub : ∀ m ∈ ms.drop (ms.length - kMaxQueueSize), m ∈ ms :=
    fun m hm => List.mem_of_mem_drop hm
  have hpop := popN_all out_buf_addr max_len hout (ms.drop (ms.length - kMaxQueueSize))
    (handleAll conns st) hq
    (fun m hm => by
      have := hsize m (hsub m hm)
      unfold kMaxMessageSize at this
      omega)
    (fun m hm => hmax m (hsub m hm))
  rw [hl] at hpop
  refine ⟨hq, by rw [hq, hl], ?_, ?_⟩
  · rw [hpop]
  · rw [hpop]

theorem queue_keeps_last_sixteen_witness :
    ({ ServerState.init with sApiKey := k1 } : ServerState).sMessageQueue = []
    ∧ (handleAll seventeenPosts { ServerState.init with sApiKey := k1 }).sMessageQueue
        = seventeenMessages.drop 1
    ∧ (popN 1 100 16 (handleAll seventeenPosts { ServerState.init with sApiKey := k1 })).1
        = (seventeenMessages.drop 1).map wholeMessage := by
  have h := queue_keeps_last_sixteen { ServerState.init with sApiKey := k1 }
    seventeenPosts seventeenMessages 1 100 rfl
    (forall₂_carries_of_zip _ _ _ (by decide) (by decide))
    (by decide) (by decide) (by decide)
  exact ⟨rfl, h.1, h.2.2.1⟩

/-! ## Searching -/

theorem findChar_of_mem (c : Char) (l : List Char) (h : c ∈ l) :
    ∃ i, findChar c l = some i ∧ (l.drop (i + 1)).count c + 1 = l.count c := by
  induction l with
  | nil => simp at h
  | cons x xs ih =>
    by_cases hx : x = c
    · exact ⟨0, by simp [findChar, hx], by simp [hx]⟩
    · have hc : c ∈ xs := by
        rcases List.mem_cons.mp h with h1 | h1
        · exact absurd h1.symm hx
        · exact h1
      obtain ⟨i, hi, hcount⟩ := ih hc
      refine ⟨i + 1, by simp [findChar, hx, hi], ?_⟩
      rw [List.drop_succ_cons, hcount, List.count_cons_of_ne (Ne.symm hx)]

theorem findChar_eq_none (c : Char) (l : List Char) (h : c ∉ l) : findChar c l = none := by
  induction l with
  | nil => rfl
  | cons x xs ih =>
    have hx : ¬ x = c := fun e => h (by simp [e])
    have hxs : c ∉ xs := fun e => h (List.mem_cons_of_mem _ e)
    simp [findChar, hx, ih hxs]

theorem findSub_of_isInfix (pat l : List Char) (h : pat <:+: l) :
    ∃ n, findSub pat l = some n := by
  induction l with
  | nil =>
    have : pat = [] := List.eq_nil_of_infix_nil h
    exact ⟨0, by simp [findSub, this]⟩
  | cons x xs ih =>
    by_cases hp : pat.isPrefixOf (x :: xs) = true
    · exact ⟨0, by simp [findSub, hp]⟩
    · rcases List.infix_cons_iff.mp h with h1 | h1
      · exact absurd (List.isPrefixOf_iff_prefix.mpr h1) hp
      · obtain ⟨n, hn⟩ := ih h1
        exact ⟨n + 1, by simp [findSub, hp, hn]⟩

theorem ParseRequestLine_of_two_spaces (line : List Char) (h : 2 ≤ line.count ' ') :
    ∃ mp, ParseRequestLine line = some mp := by
  have hmem : ' ' ∈ line := List.count_pos_iff.mp (by omega)
  obtain ⟨i, hi, hcount⟩ := findChar_of_mem ' ' line hmem
  have hmem2 : ' ' ∈ line.drop (i + 1) := List.count_pos_iff.mp (by omega)
  obtain ⟨j, hj, _⟩ := findChar_of_mem ' ' _ hmem2
  exact ⟨(line.take i, (line.drop (i + 1)).take (j + (i + 1) - i - 1)),
    by simp [ParseRequestLine, hi, findCharFrom, hj]⟩

/-! ## The parsed request in terms of the buffer -/

theorem parseRequest_of_framed (buffer : List Char) (hterm : CRLFCRLF <:+: buffer)
    (hline : 2 ≤ (requestLineOf buffer).count ' ') :
    ∃ method path, parseRequest buffer = ParseResult.ok
      { method := method, path := path, api_key_header := apiKeyHeaderOf buffer,
        body := bodyOf buffer } := by
  obtain ⟨header_end, he⟩ := findSub_of_isInfix _ _ hterm
  have hne : buffer ≠ [] := by
    intro e
    rw [e] at hterm
    have := List.eq_nil_of_infix_nil hterm
    simp [CRLFCRLF] at this
  have hb : headerBlockOf buffer = buffer.take header_end := by simp [headerBlockOf, he]
  obtain ⟨⟨method, path⟩, hmp⟩ := ParseRequestLine_of_two_spaces _ hline
  rw [requestLineOf, hb] at hmp
  refine ⟨method, path, ?_⟩
  simp only [parseRequest, hne, if_false, he, hmp, apiKeyHeaderOf, hb, bodyOf]

/-! ## The auth guard -/

/-- Claim C2.  With a non-empty secret configured, every framed request (header
terminator present, request line with at least two spaces) whose `x-api-key`
value (empty when the header is missing) differs from the secret is answered
`401 {"error":"unauthorized"}` whatever its method, path and body, and the
statics, message queue and snapshot included, are unchanged. -/
theorem auth_rejects_wrong_key (reads : List (List Char)) (now : Int) (st : ServerState)
    (hsecret : st.sApiKey ≠ [])
    (hterm : CRLFCRLF <:+: recvRequest reads)
    (hline : 2 ≤ (requestLineOf (recvRequest reads)).count ' ')
    (hkey : apiKeyHeaderOf (recvRequest reads) ≠ st.sApiKey) :
    HandleClient reads now st =
      (some { code := 401, body := bodyUnauthorized, content_type := applicationJson },
       st) := by
  obtain ⟨method, path, hparse⟩ := parseRequest_of_framed _ hterm hline
  rw [HandleClient_of_parse hparse]
  simp [dispatch, hsecret, hkey]

theorem auth_rejects_wrong_key_witness :
    HandleClient [postRequest wrongKey hello] 0 { ServerState.init with sApiKey := k1 } =
      (some { code := 401, body := bodyUnauthorized, content_type := applicationJson },
       { ServerState.init with sApiKey := k1 })
    ∧ HandleClient [buildRequest stateRequestLine [hostLine] []] 0 runningK1 =
      (some { code := 401, body := bodyUnauthorized, content_type := applicationJson },
       runningK1) :=
  ⟨auth_rejects_wrong_key [postRequest wrongKey hello] 0
      { ServerState.init with sApiKey := k1 } (by decide) (by decide) (by decide) (by decide),
   auth_rejects_wrong_key [buildRequest stateRequestLine [hostLine] []] 0 runningK1
      (by decide) (by decide) (by decide) (by decide)⟩

/-! ## What request handling leaves alone -/

theorem dispatch_frame (req : ParsedRequest) (now : Int) (st : ServerState) :
    (dispatch req now st).2 =
      { st with sMessageQueue := (dispatch req now st).2.sMessageQueue } := by
  unfold dispatch
  split_ifs <;> first | rfl | (cases ExtractJsonString req.body textKey <;> rfl)

theorem HandleClient_frame (reads : List (List Char)) (now : Int) (st : ServerState) :
    (HandleClient reads now st).2 =
      { st with sMessageQueue := (HandleClient reads now st).2.sMessageQueue } := by
  unfold HandleClient
  cases parseRequest (recvRequest reads) with
  | noData => rfl
  | badRequest => rfl
  | ok req => exact dispatch_frame req now st

theorem handleAll_frame (conns : List (List (List Char) × Int)) (st : ServerState) :
    handleAll conns st = { st with sMessageQueue := (handleAll conns st).sMessageQueue } := by
  induction conns generalizing st with
  | nil => rfl
  | cons c conns ih =>
    have h1 := HandleClient_frame c.1 c.2 st
    have h2 := ih (HandleClient c.1 c.2 st).2
    simp only [handleAll, List.foldl_cons] at h2 ⊢
    rw [h2, h1]

theorem dispatch_state {req : ParsedRequest} {st : ServerState}
    (hauth : authorized st req = true) (hm : req.method = GET) (hp : req.path = pathState)
    (now : Int) :
    dispatch req now st =
      ({ code := 200
         body := if st.sSnapshotJson = [] then emptyObject else st.sSnapshotJson
         content_type := applicationJson }, st) := by
  have h1 : ¬ (st.sApiKey ≠ [] ∧ req.api_key_header ≠ st.sApiKey) := by
    simp only [authorized, decide_eq_true_eq] at hauth
    rcases hauth with h | h
    · simp [h]
    · simp [h]
  have h2 : ¬ (pathState = pathHealth) := by decide
  simp [dispatch, h1, hm, hp, h2]

/-! ## The snapshot -/

/-- Claim C3, as amended.  After `SetSnapshot(s)`, and any number of connections
handled in between, an authorized `GET /v1/state` is answered 200 with body
exactly `s` when `s` is not empty, and with body `{}` when `s` is empty; while
the snapshot still has its initial value the body is `{}` as well. -/
theorem snapshot_round_trip (s : List Char) (st : ServerState)
    (conns : List (List (List Char) × Int)) (reads : List (List Char)) (now : Int)
    (req : ParsedRequest)
    (hparse : parseRequest (recvRequest reads) = ParseResult.ok req)
    (hauth : authorized st req = true)
    (hm : req.method = GET) (hp : req.path = pathState) :
    (HandleClient reads now (handleAll conns (http_server_set_snapshot s st))).1 =
        some { code := 200, body := if s = [] then emptyObject else s,
               content_type := applicationJson }
    ∧ (st.sSnapshotJson = [] →
        (HandleClient reads now (handleAll conns st)).1 =
          some { code := 200, body := emptyObject, content_type := applicationJson }) := by
  constructor
  · rw [HandleClient_of_parse hparse, handleAll_frame]
    rw [dispatch_state (by simpa [authorized, http_server_set_snapshot] using hauth) hm hp]
    simp [http_server_set_snapshot]
  · intro h0
    rw [HandleClient_of_parse hparse, handleAll_frame]
    rw [dispatch_state (by simpa [authorized] using hauth) hm hp]
    simp [h0]

theorem snapshot_round_trip_witness :
    (HandleClient [stateRequest k1] 0
        (handleAll [([postRequest k1 hello], 0)]
          (http_server_set_snapshot sampleSnapshot runningK1))).1 =
      some { code := 200, body := sampleSnapshot, content_type := applicationJson }
    ∧ (HandleClient [stateRequest k1] 0 (handleAll [([postRequest k1 hello], 0)] runningK1)).1 =
      some { code := 200, body := emptyObject, content_type := applicationJson } :=
  have h := snapshot_round_trip sampleSnapshot runningK1 [([postRequest k1 hello], 0)]
    [stateRequest k1] 0
    { method := GET, path := pathState, api_key_header := k1, body := [] }
    (by decide) (by decide) rfl rfl
  ⟨h.1, h.2 (by decide)⟩

/-- Claim C3, counterexample.  After `SetSnapshot` of the empty string an authorized
`GET /v1/state` is answered with the body `{}`, not with the empty string that
was set. -/
theorem snapshot_empty_not_returned :
    (HandleClient [stateRequest k1] 0 (http_server_set_snapshot [] runningK1)).1 =
        some { code := 200, body := emptyObject, content_type := applicationJson }
    ∧ (HandleClient [stateRequest k1] 0 (http_server_set_snapshot [] runningK1)).1 ≠
        some { code := 200, body := [], content_type := applicationJson } := by
  decide

/-! ## The request `postRequest` -/

theorem isPrefixOf_CRLFCRLF_line (l t : List Char) (c : Char) (hl : '\n' ∉ c :: l) :
    CRLFCRLF.isPrefixOf (c :: (l ++ '\r' :: t)) = false := by
  cases l with
  | nil => simp [CRLFCRLF, List.isPrefixOf]
  | cons d l' =>
    have hd : d ≠ '\n' := fun e => hl (by simp [e])
    simp [CRLFCRLF, List.isPrefixOf, Ne.symm hd]

theorem findSub_CRLFCRLF_line (l t : List Char) (hl : '\n' ∉ l) :
    findSub CRLFCRLF (l ++ '\r' :: t) =
      (findSub CRLFCRLF ('\r' :: t)).map (· + l.length) := by
  induction l with
  | nil => simp
  | cons c l ih =>
    have hl' : '\n' ∉ l := fun e => hl (List.mem_cons_of_mem _ e)
    rw [List.cons_append, findSub, isPrefixOf_CRLFCRLF_line l t c hl, ih hl']
    cases findSub CRLFCRLF ('\r' :: t) with
    | none => simp
    | some n => simp; omega

theorem takeWhile_no_newline (l : List Char) (h : '\n' ∉ l) :
    l.takeWhile (fun c => c != '\n') = l := by
  rw [List.takeWhile_eq_self_iff]
  intro c hc
  have : c ≠ '\n' := fun e => h (e ▸ hc)
  simp [this]

theorem dropWhile_no_newline (l : List Char) (h : '\n' ∉ l) :
    l.dropWhile (fun c => c != '\n') = [] := by
  rw [List.dropWhile_eq_nil_iff]
  intro c hc
  have : c ≠ '\n' := fun e => h (e ▸ hc)
  simp [this]

theorem getline_no_newline (l : List Char) (hne : l ≠ []) (h : '\n' ∉ l) :
    getline l = some (l, []) := by
  cases l with
  | nil => exact absurd rfl hne
  | cons c l =>
    simp only [getline]
    rw [takeWhile_no_newline _ h, dropWhile_no_newline _ h]
    rfl

theorem firstQuote_textBody (t : List Char) : firstQuote (textBody t) textKey = some 8 := by
  simp [firstQuote, textBody, textKey, findSub, List.isPrefixOf, findCharFrom, findChar]

theorem scanValue_cons_plain (c : Char) (cs acc : List Char) (h1 : c ≠ '\\') (h2 : c ≠ '"') :
    scanValue (c :: cs) false acc =
      if kMaxMessageSize ≤ (acc ++ [c]).length then (ScanExit.cap, acc ++ [c])
      else scanValue cs false (acc ++ [c]) := by
  rw [scanValue]
  simp only [Bool.false_eq_true, if_false, h1, h2]

theorem decodeFrom_cons_plain (c : Char) (cs : List Char) (h1 : c ≠ '\\') (h2 : c ≠ '"') :
    decodeFrom (c :: cs) false = c :: decodeFrom cs false := by
  simp [decodeFrom, h1, h2]

theorem scanValue_decodeFrom (cs : List Char) (escaping : Bool) (acc : List Char) :
    ((scanValue cs escaping acc).1 ≠ ScanExit.cap →
        (scanValue cs escaping acc).2 = acc ++ decodeFrom cs escaping)
    ∧ ((scanValue cs escaping acc).1 = ScanExit.cap →
        (scanValue cs escaping acc).2 <+: acc ++ decodeFrom cs escaping
        ∧ kMaxMessageSize ≤ (scanValue cs escaping acc).2.length) := by
  induction cs generalizing escaping acc with
  | nil => simp [scanValue, decodeFrom]
  | cons c cs ih =>
    cases escaping with
    | true =>
      have h := ih false (acc ++ [if c = 'n' then '\n' else if c = 't' then '\t' else c])
      simpa [scanValue, decodeFrom] using h
    | false =>
      by_cases h1 : c = '\\'
      · have h := ih true acc
        simpa [scanValue, decodeFrom, h1] using h
      · by_cases h2 : c = '"'
        · simp [scanValue, decodeFrom, h2]
        · by_cases h3 : kMaxMessageSize ≤ (acc ++ [c]).length
          · have hp : acc ++ [c] <+: acc ++ c :: decodeFrom cs false :=
              ⟨decodeFrom cs false, by simp⟩
            rw [scanValue_cons_plain c cs acc h1 h2, if_pos h3,
              decodeFrom_cons_plain c cs h1 h2]
            exact ⟨fun h => absurd rfl h, fun _ => ⟨hp, h3⟩⟩
          · have h := ih false (acc ++ [c])
            rw [scanValue_cons_plain c cs acc h1 h2, if_neg h3,
              decodeFrom_cons_plain c cs h1 h2]
            simpa using h

theorem take_scanValue (cs : List Char) :
    (scanValue cs false []).2.take kMaxMessageSize = (decodeValue cs).take kMaxMessageSize := by
  have h := scanValue_decodeFrom cs false []
  by_cases hc : (scanValue cs false []).1 = ScanExit.cap
  · obtain ⟨⟨rest, hrest⟩, hlen⟩ := h.2 hc
    unfold decodeValue
    rw [List.nil_append] at hrest
    rw [← hrest, List.take_append_of_le_length hlen]
  · rw [h.1 hc]
    rfl

theorem ExtractJsonString_long (body : List Char) (first_quote : Nat)
    (hfq : firstQuote body textKey = some first_quote)
    (hlong : kMaxMessageSize < (decodeValue (body.drop (first_quote + 1))).length) :
    ∃ message, ExtractJsonString body textKey = some message
      ∧ message.take kMaxMessageSize =
        (decodeValue (body.drop (first_quote + 1))).take kMaxMessageSize := by
  have htake := take_scanValue (body.drop (first_quote + 1))
  have hne : (scanValue (body.drop (first_quote + 1)) false []).2 ≠ [] := by
    intro e
    rw [e] at htake
    have h0 : ((decodeValue (body.drop (first_quote + 1))).take kMaxMessageSize).length = 0 := by
      rw [← htake]; rfl
    rw [List.length_take] at h0
    unfold kMaxMessageSize at h0 hlong
    omega
  refine ⟨(scanValue (body.drop (first_quote + 1)) false []).2, ?_, htake⟩
  unfold ExtractJsonString
  rw [hfq]
  simp only
  split
  · next result h => rw [h]
  · next x result hx h => simp [h] at hne ⊢; exact hne

/-! ## Oversized messages -/

theorem pushMessage_eq (q : List (List Char)) (m : List Char) :
    pushMessage q m =
      (if kMaxQueueSize ≤ q.length then q.drop 1 else q) ++ [m.take kMaxMessageSize] := by
  unfold pushMessage
  by_cases h : kMaxMessageSize < m.length
  · simp [h]
  · have : m.take kMaxMessageSize = m := List.take_of_length_le (by omega)
    simp [h, this]

/-- Claim C5.  An authorized `POST /v1/message` whose `text` value, after escape
decoding, is longer than 512 bytes is not rejected: it is answered `202` and the
entry appended to the queue (after the oldest entry is dropped from a full queue)
is exactly the first 512 bytes of that decoded value, wherever the backslash
escapes of the value lie. -/
theorem oversized_message_truncated (reads : List (List Char)) (now : Int) (st : ServerState)
    (req : ParsedRequest) (first_quote : Nat)
    (hparse : parseRequest (recvRequest reads) = ParseResult.ok req)
    (hauth : authorized st req = true)
    (hm : req.method = POST) (hp : req.path = pathMessage)
    (hfq : firstQuote req.body textKey = some first_quote)
    (hlong : kMaxMessageSize < (decodeValue (req.body.drop (first_quote + 1))).length) :
    HandleClient reads now st =
      (some { code := 202, body := bodyOk, content_type := applicationJson },
       { st with
         sMessageQueue :=
           (if kMaxQueueSize ≤ st.sMessageQueue.length then st.sMessageQueue.drop 1
            else st.sMessageQueue)
           ++ [(decodeValue (req.body.drop (first_quote + 1))).take kMaxMessageSize] }) := by
  obtain ⟨message, hx, htake⟩ := ExtractJsonString_long req.body first_quote hfq hlong
  have ha : st.sApiKey = [] ∨ req.api_key_header = st.sApiKey := by
    simpa [authorized] using hauth
  rw [HandleClient_of_parse hparse, dispatch_post ha hm hp hx, pushMessage_eq, htake]

theorem oversized_message_truncated_witness :
    HandleClient [postRequest k1 longEscaped] 0 runningK1 =
      (some { code := 202, body := bodyOk, content_type := applicationJson },
       { runningK1 with sMessageQueue := [List.replicate 511 'a' ++ ['\n']] }) := by
  have h := oversized_message_truncated [postRequest k1 longEscaped] 0 runningK1
    { method := POST, path := pathMessage, api_key_header := k1, body := textBody longEscaped }
    8 (by decide!) (by decide) rfl rfl (by decide!) (by decide!)
  rw [h]
  decide!

/-! ## Popping -/

/-- Claim C6.  Called with a caller's buffer (a non-null address) and
`max_len >= 1`: on a queue whose oldest entry is `m` (of a length that fits an
`int`, as every stored entry does), `http_server_pop_message` removes exactly `m`
and keeps the other entries in order, stores the first `min (length m) (max_len - 1)`
bytes of `m` followed by one zero byte, hence at most `max_len` bytes, and returns
that count; on an empty queue it returns 0, stores nothing and leaves the queue
empty. -/
theorem pop_message_semantics (out_buf_addr : Nat) (max_len : Int) (st : ServerState)
    (hout : out_buf_addr ≠ 0) (hmax : 1 ≤ max_len) :
    (∀ m rest, st.sMessageQueue = m :: rest → m.length < 2 ^ 31 →
      http_server_pop_message out_buf_addr max_len st =
        ({ ret := ((min m.length (max_len - 1).toNat : Nat) : Int)
           written := m.take (min m.length (max_len - 1).toNat) ++ [Char.ofNat 0] },
         { st with sMessageQueue := rest })
      ∧ ((http_server_pop_message out_buf_addr max_len st).1.written.length : Int) ≤ max_len)
    ∧ (st.sMessageQueue = [] →
      http_server_pop_message out_buf_addr max_len st = ({ ret := 0, written := [] }, st)) := by
  have h0 : ¬ (out_buf_addr = 0 ∨ max_len ≤ 0) := by omega
  constructor
  · intro m rest hq hlen
    have hpop : http_server_pop_message out_buf_addr max_len st =
        ({ ret := ((min m.length (max_len - 1).toNat : Nat) : Int)
           written := m.take (min m.length (max_len - 1).toNat) ++ [Char.ofNat 0] },
         { st with sMessageQueue := rest }) := by
      unfold http_server_pop_message
      simp only [h0, if_false, hq, toInt32_small _ hlen]
      by_cases hc : max_len ≤ (m.length : Int)
      · have hmin : min m.length (max_len - 1).toNat = (max_len - 1).toNat := by omega
        have hl : (m.take (max_len - 1).toNat).length = (max_len - 1).toNat := by
          rw [List.length_take]; omega
        rw [if_pos hc, hmin, toInt32_small _ (by rw [hl]; omega), hl]
      · have hmin : min m.length (max_len - 1).toNat = m.length := by omega
        rw [if_neg hc, hmin, toInt32_small _ hlen, List.take_length]
    refine ⟨hpop, ?_⟩
    rw [hpop]
    simp only [List.length_append, List.length_take, List.length_singleton]
    omega
  · intro hq
    unfold http_server_pop_message
    simp only [h0, if_false, hq]

theorem pop_message_semantics_witness :
    http_server_pop_message 1 3 { runningK1 with sMessageQueue := [hello, ['a']] } =
      ({ ret := 2, written := ['h', 'e', Char.ofNat 0] },
       { runningK1 with sMessageQueue := [['a']] })
    ∧ http_server_pop_message 1 3 runningK1 = ({ ret := 0, written := [] }, runningK1) :=
  have h := pop_message_semantics 1 3 { runningK1 with sMessageQueue := [hello, ['a']] }
    (by decide) (by decide)
  have h' := pop_message_semantics 1 3 runningK1 (by decide) (by decide)
  ⟨(h.1 hello [['a']] rfl (by decide)).1, h'.2 rfl⟩

/-! ## Starting while running -/

theorem http_server_start_running (env : StartEnv) (bind_address : List Char) (port : Int)
    (api_key : List Char) (st : ServerState) (hrun : st.sRunning = true)
    (hport : 1 ≤ port ∧ port ≤ 65535) :
    http_server_start env bind_address port api_key st =
      (1, { st with sBindAddress := bind_address, sApiKey := api_key, sPort := port }, []) := by
  have h0 : ¬ (port ≤ 0 ∨ 65535 < port) := by omega
  simp [http_server_start, h0, StartServerInternal, hrun]

/-- Claim C7, the code at the failing input.  On a server running with the secret
`k1`, the call `http_server_start("0.0.0.0", 8080, "k2")` returns 1 and touches no
socket and no thread, but it overwrites the stored bind address, port and secret:
a request carrying the original key `k1`, answered 200 before the call, is
answered 401 after it. -/
theorem start_while_running_replaces_secret :
    http_server_start okEnv anyAddress 8080 k2 runningK1 =
      (1, { runningK1 with sBindAddress := anyAddress, sApiKey := k2, sPort := 8080 }, [])
    ∧ (http_server_start okEnv anyAddress 8080 k2 runningK1).2.1.sApiKey ≠ runningK1.sApiKey
    ∧ (HandleClient [stateRequest k1] 0 runningK1).1 =
        some { code := 200, body := emptyObject, content_type := applicationJson }
    ∧ (HandleClient [stateRequest k1] 0
        (http_server_start okEnv anyAddress 8080 k2 runningK1).2.1).1 =
        some { code := 401, body := bodyUnauthorized, content_type := applicationJson } := by
  decide

/-! ## Rejected and unknown requests -/

theorem findSub_some_isInfix (pat l : List Char) (n : Nat) (h : findSub pat l = some n) :
    pat <:+: l := by
  induction l generalizing n with
  | nil =>
    by_cases hp : pat = []
    · rw [hp]
    · simp [findSub, hp] at h
  | cons x xs ih =>
    by_cases hp : pat.isPrefixOf (x :: xs) = true
    · exact (List.isPrefixOf_iff_prefix.mp hp).isInfix
    · simp only [findSub, hp] at h
      cases hx : findSub pat xs with
      | none => simp [hx] at h
      | some m => exact List.infix_cons (ih m hx)

theorem findSub_eq_none (pat l : List Char) (h : ¬ pat <:+: l) : findSub pat l = none := by
  cases hx : findSub pat l with
  | none => rfl
  | some n => exact absurd (findSub_some_isInfix pat l n hx) h

/-- Claim C8.  An authorized `POST /v1/message` whose body does not contain the
quoted key `"text"` is answered `400 {"error":"missing text"}` and leaves the
statics, the message queue among them, unchanged. -/
theorem missing_text_rejected (reads : List (List Char)) (now : Int) (st : ServerState)
    (req : ParsedRequest)
    (hparse : parseRequest (recvRequest reads) = ParseResult.ok req)
    (hauth : authorized st req = true)
    (hm : req.method = POST) (hp : req.path = pathMessage)
    (hbody : ¬ (['"'] ++ textKey ++ ['"'] <:+: req.body)) :
    HandleClient reads now st =
      (some { code := 400, body := bodyMissingText, content_type := applicationJson },
       st) := by
  have hx : ExtractJsonString req.body textKey = none := by
    simp only [ExtractJsonString, firstQuote, findSub_eq_none _ _ hbody]
  have h1 : ¬ (st.sApiKey ≠ [] ∧ req.api_key_header ≠ st.sApiKey) := by
    simp only [authorized, decide_eq_true_eq] at hauth
    rcases hauth with h | h
    · simp [h]
    · simp [h]
  have h2 : ¬ (POST = GET) := by decide
  rw [HandleClient_of_parse hparse]
  simp [dispatch, h1, hm, hp, hx, h2]

theorem missing_text_rejected_witness :
    HandleClient [postMsgRequest k1] 0 { runningK1 with sMessageQueue := [hello] } =
      (some { code := 400, body := bodyMissingText, content_type := applicationJson },
       { runningK1 with sMessageQueue := [hello] }) :=
  missing_text_rejected [postMsgRequest k1] 0 { runningK1 with sMessageQueue := [hello] }
    { method := POST, path := pathMessage, api_key_header := k1, body := msgBody }
    (by decide) (by decide) rfl rfl (by decide)

/-- Claim C9.  An authorized, well-formed request whose method and path are none
of `GET /v1/health`, `GET /v1/state`, `POST /v1/message` (compared byte for byte)
is answered `404 {"error":"not found"}` and leaves the statics, queue and
snapshot among them, unchanged. -/
theorem unknown_route_not_found (reads : List (List Char)) (now : Int) (st : ServerState)
    (req : ParsedRequest)
    (hparse : parseRequest (recvRequest reads) = ParseResult.ok req)
    (hauth : authorized st req = true)
    (hhealth : ¬ (req.method = GET ∧ req.path = pathHealth))
    (hstate : ¬ (req.method = GET ∧ req.path = pathState))
    (hmessage : ¬ (req.method = POST ∧ req.path = pathMessage)) :
    HandleClient reads now st =
      (some { code := 404, body := bodyNotFound, content_type := applicationJson }, st) := by
  have h1 : ¬ (st.sApiKey ≠ [] ∧ req.api_key_header ≠ st.sApiKey) := by
    simp only [authorized, decide_eq_true_eq] at hauth
    rcases hauth with h | h
    · simp [h]
    · simp [h]
  rw [HandleClient_of_parse hparse]
  unfold dispatch
  rw [if_neg h1, if_neg hhealth, if_neg hstate, if_neg hmessage]

theorem unknown_route_not_found_witness :
    HandleClient [unknownRequest k1] 0 runningK1 =
      (some { code := 404, body := bodyNotFound, content_type := applicationJson },
       runningK1)
    ∧ HandleClient [lowerCaseHealthRequest k1] 0 runningK1 =
      (some { code := 404, body := bodyNotFound, content_type := applicationJson },
       runningK1) :=
  ⟨unknown_route_not_found [unknownRequest k1] 0 runningK1
      { method := GET, path := ['/', 'v', '1', '/', 'u', 'n', 'k', 'n', 'o', 'w', 'n'],
        api_key_header := k1, body := [] }
      (by decide) (by decide) (by decide) (by decide) (by decide),
   unknown_route_not_found [lowerCaseHealthRequest k1] 0 runningK1
      { method := ['g', 'e', 't'], path := pathHealth, api_key_header := k1, body := [] }
      (by decide) (by decide) (by decide) (by decide) (by decide)⟩

/-! ## Requests built from lines -/

theorem isPrefixOf_CRLFCRLF_header (h t : List Char) (hne : h ≠ []) (hnl : '\n' ∉ h) :
    CRLFCRLF.isPrefixOf ('\r' :: '\n' :: (h ++ '\r' :: t)) = false := by
  cases h with
  | nil => exact absurd rfl hne
  | cons c h' =>
    cases h' with
    | nil => simp [CRLFCRLF, List.isPrefixOf]
    | cons d h'' =>
      have hd : d ≠ '\n' := fun e => hnl (by simp [e])
      simp [CRLFCRLF, List.isPrefixOf, Ne.symm hd]

theorem headerLines_tail (hs : List (List Char)) (body : List Char) :
    ∃ t, headerLines hs ++ CRLFCRLF ++ body = '\r' :: t := by
  cases hs with
  | nil => exact ⟨_, rfl⟩
  | cons h hs => exact ⟨_, rfl⟩

theorem findSub_headerLines (hs : List (List Char)) (body : List Char)
    (hwf : ∀ h ∈ hs, h ≠ [] ∧ '\n' ∉ h) :
    findSub CRLFCRLF (headerLines hs ++ CRLFCRLF ++ body) = some (headerLines hs).length := by
  induction hs with
  | nil => simp [headerLines, CRLFCRLF, findSub, List.isPrefixOf]
  | cons h hs ih =>
    obtain ⟨hne, hnl⟩ := hwf h (List.mem_cons_self _ _)
    have ih' := ih (fun x hx => hwf x (List.mem_cons_of_mem _ hx))
    obtain ⟨t, ht⟩ := headerLines_tail hs body
    have e : headerLines (h :: hs) ++ CRLFCRLF ++ body =
        '\r' :: '\n' :: (h ++ '\r' :: t) := by
      simp only [headerLines, List.cons_append, List.append_assoc]
      rw [← ht]
      simp
    have h1 : CRLFCRLF.isPrefixOf ('\n' :: (h ++ '\r' :: t)) = false := by
      simp [CRLFCRLF, List.isPrefixOf]
    rw [e, findSub, isPrefixOf_CRLFCRLF_header h t hne hnl, findSub, h1,
      findSub_CRLFCRLF_line h t hnl, ← ht, ih']
    simp [headerLines]
    omega

theorem findSub_buildRequest (request_line : List Char) (hs : List (List Char))
    (body : List Char) (hrl : '\n' ∉ request_line) (hwf : ∀ h ∈ hs, h ≠ [] ∧ '\n' ∉ h) :
    findSub CRLFCRLF (buildRequest request_line hs body) =
      some (request_line ++ headerLines hs).length := by
  obtain ⟨t, ht⟩ := headerLines_tail hs body
  have e : buildRequest request_line hs body = request_line ++ '\r' :: t := by
    rw [← ht]
    simp [buildRequest]
  rw [e, findSub_CRLFCRLF_line request_line t hrl, ← ht, findSub_headerLines hs body hwf]
  simp
  omega

theorem findChar_lt (c : Char) (l : List Char) (i : Nat) (h : findChar c l = some i) :
    i < l.length := by
  induction l generalizing i with
  | nil => simp [findChar] at h
  | cons x xs ih =>
    by_cases hx : x = c
    · simp [findChar, hx] at h
      simp [← h]
    · simp only [findChar, hx, if_false] at h
      cases hf : findChar c xs with
      | none => simp [hf] at h
      | some j =>
        simp [hf] at h
        have := ih j hf
        simp [← h]
        omega

theorem findChar_append_singleton (c d : Char) (l : List Char) (hd : d ≠ c) :
    findChar c (l ++ [d]) = findChar c l := by
  induction l with
  | nil => simp [findChar, hd]
  | cons x xs ih =>
    by_cases hx : x = c
    · simp [findChar, hx]
    · simp [findChar, hx, ih]

theorem ParseRequestLine_append_singleton (l : List Char) (d : Char) (hd : d ≠ ' ') :
    ParseRequestLine (l ++ [d]) = ParseRequestLine l := by
  unfold ParseRequestLine
  rw [findChar_append_singleton ' ' d l hd]
  cases h1 : findChar ' ' l with
  | none => rfl
  | some i =>
    have hi := findChar_lt ' ' l i h1
    have hdrop : (l ++ [d]).drop (i + 1) = l.drop (i + 1) ++ [d] :=
      List.drop_append_of_le_length (by omega)
    simp only [findCharFrom, hdrop, findChar_append_singleton ' ' d _ hd]
    cases h2 : findChar ' ' (l.drop (i + 1)) with
    | none => rfl
    | some j =>
      have hj := findChar_lt ' ' _ j h2
      have e : j + (i + 1) - i - 1 = j := by omega
      simp only [Option.map_some', e]
      rw [List.take_append_of_le_length (by omega), List.take_append_of_le_length (by omega)]

theorem ParseRequestLine_stripCR (l : List Char) :
    ParseRequestLine (stripCR l) = ParseRequestLine l := by
  unfold stripCR
  by_cases h : l.getLast? = some '\r'
  · rw [if_pos h]
    obtain ⟨ys, hys⟩ := List.getLast?_eq_some_iff.mp h
    rw [hys, List.dropLast_concat, ParseRequestLine_append_singleton ys '\r' (by decide)]
  · rw [if_neg h]

theorem ParseRequestLine_requestLine (request_line : List Char) (hs : List (List Char))
    (hnl : '\n' ∉ request_line) :
    ParseRequestLine (requestLine (request_line ++ headerLines hs)) =
      ParseRequestLine request_line := by
  cases hs with
  | nil =>
    cases hrl : request_line with
    | nil => simp [headerLines, requestLine, getline]
    | cons c l =>
      rw [← hrl]
      simp only [headerLines, List.append_nil, requestLine,
        getline_no_newline request_line (by simp [hrl]) hnl, ParseRequestLine_stripCR]
  | cons h hs =>
    have hne : request_line ++ headerLines (h :: hs) ≠ [] := by simp [headerLines]
    obtain ⟨c, l, hcl⟩ := List.exists_cons_of_ne_nil hne
    have htw : (request_line ++ headerLines (h :: hs)).takeWhile (fun c => c != '\n')
        = request_line ++ ['\r'] := by
      have e : request_line ++ headerLines (h :: hs) =
          (request_line ++ ['\r']) ++ '\n' :: (h ++ headerLines hs) := by
        simp [headerLines]
      rw [e, List.takeWhile_append_of_pos, List.takeWhile_cons_of_neg (by simp),
        List.append_nil]
      intro x hx
      have : x ≠ '\n' := by
        rintro rfl
        rcases List.mem_append.mp hx with h1 | h1
        · exact hnl h1
        · simp at h1
      simp [this]
    have hreq : requestLine (request_line ++ headerLines (h :: hs)) = request_line := by
      unfold requestLine getline
      rw [hcl]
      simp only
      rw [← hcl, htw]
      simp [stripCR]
    rw [hreq]

theorem parseRequest_buildRequest (request_line : List Char) (hs : List (List Char))
    (body : List Char) (hnl : '\n' ∉ request_line)
    (hwf : ∀ h ∈ hs, h ≠ [] ∧ '\n' ∉ h) :
    parseRequest (buildRequest request_line hs body) =
      match ParseRequestLine request_line with
      | none => ParseResult.badRequest
      | some (method, path) =>
        ParseResult.ok
          { method := method
            path := path
            api_key_header :=
              apiKeyLoop ((headerStream (request_line ++ headerLines hs)).length + 1)
                (headerStream (request_line ++ headerLines hs)) []
            body := body } := by
  have hne : buildRequest request_line hs body ≠ [] := by simp [buildRequest, CRLFCRLF]
  have htake : (buildRequest request_line hs body).take (request_line ++ headerLines hs).length
      = request_line ++ headerLines hs := by
    rw [buildRequest, List.append_assoc (request_line ++ headerLines hs), List.take_left']
    rfl
  have hdrop : (buildRequest request_line hs body).drop
      ((request_line ++ headerLines hs).length + 4) = body := by
    have : (request_line ++ headerLines hs).length + 4
        = (request_line ++ headerLines hs ++ CRLFCRLF).length := by
      rw [List.length_append (request_line ++ headerLines hs)]
      rfl
    rw [this, buildRequest, List.drop_left']
    rfl
  have hlen : (request_line ++ headerLines hs).length + 4
      ≤ (buildRequest request_line hs body).length := by
    simp only [buildRequest, List.length_append]
    simp [CRLFCRLF]
  simp only [parseRequest, hne, if_false, findSub_buildRequest request_line hs body hnl hwf,
    htake, hdrop, hlen, if_true, ParseRequestLine_requestLine request_line hs hnl]

theorem dispatch_no_secret (req : ParsedRequest) (now : Int) (st : ServerState)
    (hsecret : st.sApiKey = []) (key : List Char) :
    dispatch { req with api_key_header := key } now st = dispatch req now st := by
  simp [dispatch, hsecret]

theorem dispatch_code_no_secret (req : ParsedRequest) (now : Int) (st : ServerState)
    (hsecret : st.sApiKey = []) : (dispatch req now st).1.code ≠ 401 := by
  unfold dispatch
  have h1 : ¬ (st.sApiKey ≠ [] ∧ req.api_key_header ≠ st.sApiKey) := by simp [hsecret]
  rw [if_neg h1]
  split_ifs <;> (try cases ExtractJsonString req.body textKey) <;> simp

theorem parseRequest_of_terminator (buffer : List Char) (hterm : CRLFCRLF <:+: buffer) :
    parseRequest buffer =
      match ParseRequestLine (requestLineOf buffer) with
      | none => ParseResult.badRequest
      | some (method, path) =>
        ParseResult.ok
          { method := method, path := path, api_key_header := apiKeyHeaderOf buffer,
            body := bodyOf buffer } := by
  obtain ⟨header_end, he⟩ := findSub_of_isInfix _ _ hterm
  have hne : buffer ≠ [] := by
    intro e
    rw [e] at hterm
    have := List.eq_nil_of_infix_nil hterm
    simp [CRLFCRLF] at this
  have hb : headerBlockOf buffer = buffer.take header_end := by simp [headerBlockOf, he]
  simp only [parseRequest, hne, if_false, he, requestLineOf, apiKeyHeaderOf, hb, bodyOf]

/-! ## The fuel of the header loops is never used up -/

theorem getline_rest_length (stream line rest : List Char)
    (h : getline stream = some (line, rest)) : rest.length < stream.length := by
  cases stream with
  | nil => simp [getline] at h
  | cons c cs =>
    simp only [getline, Option.some.injEq, Prod.mk.injEq] at h
    rw [← h.2, List.length_drop]
    have := (List.dropWhile_sublist (l := c :: cs) (fun c => c != '\n')).length_le
    simp only [List.length_cons] at this ⊢
    omega

theorem apiKeyLoop_fuel (f1 f2 : Nat) (stream acc : List Char)
    (h1 : stream.length < f1) (h2 : stream.length < f2) :
    apiKeyLoop f1 stream acc = apiKeyLoop f2 stream acc := by
  induction f1 generalizing f2 stream acc with
  | zero => omega
  | succ f1 ih =>
    cases f2 with
    | zero => omega
    | succ f2 =>
      unfold apiKeyLoop
      cases hg : getline stream with
      | none => rfl
      | some lr =>
        obtain ⟨line, rest⟩ := lr
        have hr := getline_rest_length stream line rest hg
        simp only
        cases findChar ':' (stripCR line) with
        | none => exact ih f2 rest acc (by omega) (by omega)
        | some sep => exact ih f2 rest _ (by omega) (by omega)

theorem contentLengthLoop_fuel (f1 f2 : Nat) (stream : List Char) (content_length : Nat)
    (h1 : stream.length < f1) (h2 : stream.length < f2) :
    contentLengthLoop f1 stream content_length = contentLengthLoop f2 stream content_length := by
  induction f1 generalizing f2 stream content_length with
  | zero => omega
  | succ f1 ih =>
    cases f2 with
    | zero => omega
    | succ f2 =>
      unfold contentLengthLoop
      cases hg : getline stream with
      | none => rfl
      | some lr =>
        obtain ⟨line, rest⟩ := lr
        have hr := getline_rest_length stream line rest hg
        simp only
        cases findChar ':' (stripCR line) with
        | none => exact ih f2 rest content_length (by omega) (by omega)
        | some sep => exact ih f2 rest _ (by omega) (by omega)

/-! ## The request line -/

theorem findChar_spec (c : Char) (l : List Char) (i : Nat) (h : findChar c l = some i) :
    l = l.take i ++ c :: l.drop (i + 1) ∧ c ∉ l.take i := by
  induction l generalizing i with
  | nil => simp [findChar] at h
  | cons x xs ih =>
    by_cases hx : x = c
    · simp only [findChar, hx, if_true, Option.some.injEq] at h
      subst h
      simp [hx]
    · simp only [findChar, hx, if_false] at h
      cases hf : findChar c xs with
      | none => simp [hf] at h
      | some j =>
        simp only [hf, Option.map_some', Option.some.injEq] at h
        subst h
        obtain ⟨h1, h2⟩ := ih j hf
        refine ⟨?_, ?_⟩
        · simp only [List.take_succ_cons, List.drop_succ_cons, List.cons_append]
          rw [← h1]
        · simp only [List.take_succ_cons, List.mem_cons, not_or]
          exact ⟨fun e => hx e.symm, h2⟩

theorem findChar_append_cons (c : Char) (m t : List Char) (hm : c ∉ m) :
    findChar c (m ++ c :: t) = some m.length := by
  induction m with
  | nil => simp [findChar]
  | cons x xs ih =>
    have hx : ¬ x = c := fun e => hm (by simp [e])
    have hxs : c ∉ xs := fun e => hm (List.mem_cons_of_mem _ e)
    simp [findChar, hx, ih hxs]

theorem ParseRequestLine_build (m p rest : List Char) (hm : ' ' ∉ m) (hp : ' ' ∉ p) :
    ParseRequestLine (m ++ ' ' :: (p ++ ' ' :: rest)) = some (m, p) := by
  have hdrop : (m ++ ' ' :: (p ++ ' ' :: rest)).drop (m.length + 1) = p ++ ' ' :: rest := by
    have : m ++ ' ' :: (p ++ ' ' :: rest) = (m ++ [' ']) ++ (p ++ ' ' :: rest) := by simp
    rw [this]
    exact List.drop_left' (by simp)
  have htake : (m ++ ' ' :: (p ++ ' ' :: rest)).take m.length = m := List.take_left' rfl
  have e : p.length + (m.length + 1) - m.length - 1 = p.length := by omega
  simp only [ParseRequestLine, findChar_append_cons ' ' m _ hm, findCharFrom, hdrop,
    findChar_append_cons ' ' p _ hp, Option.map_some', htake, e]
  rw [List.take_left' rfl]

theorem ParseRequestLine_none_of_count (line : List Char) (h : line.count ' ' < 2) :
    ParseRequestLine line = none := by
  by_cases hmem : ' ' ∈ line
  · obtain ⟨i, hi, hcount⟩ := findChar_of_mem ' ' line hmem
    have h0 : (line.drop (i + 1)).count ' ' = 0 := by omega
    have hnot : ' ' ∉ line.drop (i + 1) := List.count_eq_zero.mp h0
    simp [ParseRequestLine, hi, findCharFrom, findChar_eq_none _ _ hnot]
  · simp [ParseRequestLine, findChar_eq_none _ _ hmem]

theorem ParseRequestLine_eq_none_iff (line : List Char) :
    ParseRequestLine line = none ↔ line.count ' ' < 2 := by
  constructor
  · intro h
    by_contra hc
    obtain ⟨mp, hmp⟩ := ParseRequestLine_of_two_spaces line (by omega)
    rw [h] at hmp
    exact absurd hmp (by simp)
  · exact ParseRequestLine_none_of_count line

theorem ParseRequestLine_some_shape (line m p : List Char)
    (h : ParseRequestLine line = some (m, p)) :
    ∃ rest, line = m ++ ' ' :: (p ++ ' ' :: rest) ∧ ' ' ∉ m ∧ ' ' ∉ p := by
  unfold ParseRequestLine at h
  cases h1 : findChar ' ' line with
  | none => simp [h1] at h
  | some i =>
    cases h2 : findChar ' ' (line.drop (i + 1)) with
    | none => simp [h1, findCharFrom, h2] at h
    | some j =>
      have e : j + (i + 1) - i - 1 = j := by omega
      simp only [h1, findCharFrom, h2, Option.map_some', Option.some.injEq, Prod.mk.injEq,
        e] at h
      obtain ⟨s1, s2⟩ := findChar_spec ' ' line i h1
      obtain ⟨t1, t2⟩ := findChar_spec ' ' _ j h2
      refine ⟨(line.drop (i + 1)).drop (j + 1), ?_, ?_, ?_⟩
      · rw [← h.1, ← h.2, ← t1, ← s1]
      · rw [← h.1]; exact s2
      · rw [← h.2]; exact t2

/-- Claim C18.  `ParseRequestLine` fails exactly when the line holds fewer than two
spaces; when it succeeds the line is the method, a space, the path, a space and
a rest, with no space inside method or path (so the method is the text before
the first space and the path the text strictly between the first two spaces,
either possibly empty); and parsing `m ++ " " ++ p ++ " " ++ rest` yields `(m, p)`
for all `m` and `p` without spaces and every `rest`. -/
theorem ParseRequestLine_spec (line : List Char) :
    (ParseRequestLine line = none ↔ line.count ' ' < 2)
    ∧ (∀ m p, ParseRequestLine line = some (m, p) →
        ∃ rest, line = m ++ ' ' :: (p ++ ' ' :: rest) ∧ ' ' ∉ m ∧ ' ' ∉ p)
    ∧ (∀ m p rest, ' ' ∉ m → ' ' ∉ p →
        ParseRequestLine (m ++ ' ' :: (p ++ ' ' :: rest)) = some (m, p)) :=
  ⟨ParseRequestLine_eq_none_iff line, ParseRequestLine_some_shape line,
   ParseRequestLine_build⟩

theorem ParseRequestLine_spec_witness :
    ParseRequestLine (GET ++ ' ' :: (pathHealth ++ ' ' :: ['H', 'T', 'T', 'P'])) =
      some (GET, pathHealth)
    ∧ ParseRequestLine ([] ++ ' ' :: ([] ++ ' ' :: [])) = some ([], [])
    ∧ ParseRequestLine (GET ++ ' ' :: pathHealth) = none :=
  ⟨(ParseRequestLine_spec []).2.2 GET pathHealth ['H', 'T', 'T', 'P'] (by decide) (by decide),
   (ParseRequestLine_spec []).2.2 [] [] [] (by decide) (by decide),
   (ParseRequestLine_spec (GET ++ ' ' :: pathHealth)).1.mpr (by decide)⟩

/-! ## Malformed requests -/

theorem findSub_some_isPrefix (pat l : List Char) (n : Nat) (h : findSub pat l = some n) :
    pat <+: l.drop n := by
  induction l generalizing n with
  | nil =>
    by_cases hp : pat = []
    · simp [hp]
    · simp [findSub, hp] at h
  | cons x xs ih =>
    by_cases hp : pat.isPrefixOf (x :: xs) = true
    · simp only [findSub, hp, if_true, Option.some.injEq] at h
      subst h
      exact List.isPrefixOf_iff_prefix.mp hp
    · simp only [findSub, hp] at h
      cases hx : findSub pat xs with
      | none => simp [hx] at h
      | some m =>
        simp only [hx, Option.map_some', Bool.false_eq_true, if_false,
          Option.some.injEq] at h
        subst h
        exact ih m hx

theorem findSub_le_length (pat l : List Char) (n : Nat) (h : findSub pat l = some n) :
    n ≤ l.length := by
  induction l generalizing n with
  | nil =>
    by_cases hp : pat = []
    · simp [findSub, hp] at h
      omega
    · simp [findSub, hp] at h
  | cons x xs ih =>
    by_cases hp : pat.isPrefixOf (x :: xs) = true
    · simp only [findSub, hp, if_true, Option.some.injEq] at h
      omega
    · simp only [findSub, hp] at h
      cases hx : findSub pat xs with
      | none => simp [hx] at h
      | some m =>
        simp only [hx, Option.map_some', Bool.false_eq_true, if_false,
          Option.some.injEq] at h
        have := ih m hx
        simp only [List.length_cons]
        omega

theorem count_space_stripCR (l : List Char) : (stripCR l).count ' ' = l.count ' ' := by
  unfold stripCR
  by_cases h : l.getLast? = some '\r'
  · rw [if_pos h]
    obtain ⟨ys, hys⟩ := List.getLast?_eq_some_iff.mp h
    rw [hys, List.dropLast_concat, List.count_append]
    simp
  · rw [if_neg h]

theorem count_space_requestLineOf (buffer : List Char) (header_end : Nat)
    (h : findSub CRLFCRLF buffer = some header_end) :
    (requestLineOf buffer).count ' ' = (firstLine buffer).count ' ' := by
  obtain ⟨t, ht⟩ := findSub_some_isPrefix _ _ _ h
  have hsplit : buffer = buffer.take header_end ++ ('\r' :: '\n' :: '\r' :: '\n' :: t) := by
    have := (List.take_append_drop header_end buffer).symm
    rw [← ht] at this
    exact this
  have hb : requestLineOf buffer = requestLine (buffer.take header_end) := by
    simp [requestLineOf, headerBlockOf, h]
  rw [hb]
  generalize buffer.take header_end = hblock at hsplit
  rw [hsplit]
  unfold firstLine
  rw [List.takeWhile_append]
  cases hblock with
  | nil => simp [requestLine, getline, List.takeWhile]
  | cons c cs =>
    simp only [requestLine, getline, count_space_stripCR]
    split_ifs with hall
    · have hfull : (c :: cs).takeWhile (fun c => c != '\n') = c :: cs :=
        List.IsPrefix.eq_of_length (List.takeWhile_prefix _) hall
      rw [hfull]
      have e : (c :: cs ++ List.takeWhile (fun c => c != '\n')
          ('\r' :: '\n' :: '\r' :: '\n' :: t)) = (c :: cs) ++ ['\r'] := by
        simp [List.takeWhile]
      rw [e, List.count_append]
      simp
    · rfl

/-- Claim C11.  A non-empty received buffer that lacks the header terminator, or
whose first line holds fewer than two spaces, is answered
`400 {"error":"bad request"}` whatever the configured secret and whatever
`x-api-key` header it carries, with the statics (queue and snapshot among them)
unchanged; for an empty buffer no response is sent and nothing changes. -/
theorem malformed_request_rejected (reads : List (List Char)) (now : Int) (st : ServerState) :
    (recvRequest reads ≠ [] →
      (¬ CRLFCRLF <:+: recvRequest reads ∨ (firstLine (recvRequest reads)).count ' ' < 2) →
      HandleClient reads now st =
        (some { code := 400, body := bodyBadRequest, content_type := applicationJson }, st))
    ∧ (recvRequest reads = [] → HandleClient reads now st = (none, st)) := by
  constructor
  · intro hne h
    unfold HandleClient parseRequest
    rw [if_neg hne]
    cases hf : findSub CRLFCRLF (recvRequest reads) with
    | none => rfl
    | some header_end =>
      rcases h with h | h
      · exact absurd (findSub_some_isInfix _ _ _ hf) h
      · have hc := count_space_requestLineOf _ _ hf
        have hb : requestLineOf (recvRequest reads)
            = requestLine ((recvRequest reads).take header_end) := by
          simp [requestLineOf, headerBlockOf, hf]
        rw [hb] at hc
        simp only [ParseRequestLine_none_of_count _ (by rw [hc]; exact h)]
  · intro he
    unfold HandleClient parseRequest
    rw [if_pos he]

theorem malformed_request_rejected_witness :
    HandleClient [unterminatedRequest] 0 runningK1 =
      (some { code := 400, body := bodyBadRequest, content_type := applicationJson },
       runningK1)
    ∧ HandleClient [oneSpaceRequest] 0 runningK1 =
      (some { code := 400, body := bodyBadRequest, content_type := applicationJson },
       runningK1)
    ∧ HandleClient [oneSpaceRequest] 0 runningOpen =
      (some { code := 400, body := bodyBadRequest, content_type := applicationJson },
       runningOpen)
    ∧ HandleClient [] 0 runningK1 = (none, runningK1) :=
  ⟨(malformed_request_rejected [unterminatedRequest] 0 runningK1).1 (by decide)
      (Or.inl (by decide)),
   (malformed_request_rejected [oneSpaceRequest] 0 runningK1).1 (by decide)
      (Or.inr (by decide)),
   (malformed_request_rejected [oneSpaceRequest] 0 runningOpen).1 (by decide)
      (Or.inr (by decide)),
   (malformed_request_rejected [] 0 runningK1).2 (by decide)⟩

/-! ## When the extractor reports a value -/

theorem scanValue_cap_ne_nil (cs : List Char) (escaping : Bool) (acc : List Char)
    (h : (scanValue cs escaping acc).1 = ScanExit.cap) :
    (scanValue cs escaping acc).2 ≠ [] := by
  have hlen := ((scanValue_decodeFrom cs escaping acc).2 h).2
  intro e
  rw [e] at hlen
  simp [kMaxMessageSize] at hlen

/-- Claim C12, as amended.  `ExtractJsonString` reports a value exactly when the
opening quote of the value is located and the scan either reached an unescaped
closing quote, or stopped at the 512-byte cap, or ran to the end of the body
with at least one byte decoded; the value reported is what the scan had
decoded.  So a value cut off by the end of the body is reported as found unless
nothing was decoded. -/
theorem ExtractJsonString_found_iff (body key v : List Char) :
    ExtractJsonString body key = some v ↔
      ∃ first_quote, firstQuote body key = some first_quote
        ∧ (scanValue (body.drop (first_quote + 1)) false []).2 = v
        ∧ ((scanValue (body.drop (first_quote + 1)) false []).1 = ScanExit.quote
          ∨ (scanValue (body.drop (first_quote + 1)) false []).1 = ScanExit.cap
          ∨ ((scanValue (body.drop (first_quote + 1)) false []).1 = ScanExit.eof
              ∧ v ≠ [])) := by
  unfold ExtractJsonString
  cases hfq : firstQuote body key with
  | none => simp
  | some first_quote =>
    simp only [Option.some.injEq, exists_eq_left']
    have hcap := scanValue_cap_ne_nil (body.drop (first_quote + 1)) false []
    rcases hs : scanValue (body.drop (first_quote + 1)) false [] with ⟨exit, result⟩
    rw [hs] at hcap
    cases exit with
    | quote => simp
    | cap =>
      have hne : result ≠ [] := hcap rfl
      simp [hne]
    | eof =>
      by_cases hne : result = []
      · subst hne
        simp
      · simp only [hne, ne_eq, not_false_eq_true, if_true, Option.some.injEq, false_or,
          reduceCtorEq, true_and]
        constructor
        · intro h
          exact ⟨h, h ▸ hne⟩
        · intro h
          exact h.1

/-- Claim C12, counterexample.  On the body `{"text":"abc`, which ends before any
closing quote and long before the cap, the scan runs to the end of the body and
`ExtractJsonString` still reports the value `abc`. -/
theorem cut_off_value_is_found :
    scanValue (cutOffBody.drop 9) false [] = (ScanExit.eof, ['a', 'b', 'c'])
    ∧ firstQuote cutOffBody textKey = some 8
    ∧ ExtractJsonString cutOffBody textKey = some ['a', 'b', 'c'] := by
  decide

/-! ## The size of the extracted value -/

/-- Claim C13, the code at the failing input.  On the body `{"text":"\a...\a"}` with
513 escaped letters the scan appends all 513 decoded bytes, because the escape
branch of the loop continues before the size check, and `ExtractJsonString`
reports a value of 513 bytes. -/
theorem escaped_value_exceeds_cap :
    ExtractJsonString escapedBody textKey = some (List.replicate 513 'a')
    ∧ (List.replicate 513 'a').length = 513
    ∧ ¬ (513 ≤ kMaxMessageSize) := by
  decide!

/-! ## The response writer -/

/-- Claim C15, the code at the failing input.  A successfully stored
`POST /v1/message` is answered through `SendResponse(client, 202, ...)`, and for
the code 202 none of the four `if` statements fires: the reason phrase stays
`OK` and the status line sent is `HTTP/1.1 202 OK`, not `HTTP/1.1 202 Accepted`. -/
theorem accepted_status_line_says_ok :
    (HandleClient [postRequest k1 hello] 0 runningK1).1 =
      some { code := 202, body := bodyOk, content_type := applicationJson }
    ∧ reasonPhrase 202 = ['O', 'K']
    ∧ statusLine (responsePayload 202 bodyOk applicationJson) =
      ['H', 'T', 'T', 'P', '/', '1', '.', '1', ' ', '2', '0', '2', ' ', 'O', 'K']
    ∧ statusLine (responsePayload 202 bodyOk applicationJson) ≠
      ['H', 'T', 'T', 'P', '/', '1', '.', '1', ' ', '2', '0', '2', ' ',
       'A', 'c', 'c', 'e', 'p', 't', 'e', 'd'] := by
  decide

/-- Claim C16.  For each of the codes 200, 400, 401, 404 and 500, every body and
every content type, the payload built by `SendResponse` is the status line
`HTTP/1.1 <code> <reason>` with the reason `OK`, `Bad Request`, `Unauthorized`,
`Not Found`, `Internal Server Error` respectively, a line break, then
`Content-Type: <type>`, `Content-Length: <n>` with `n` the length of the body in
decimal, `Connection: close`, each with its line break, a blank line, and the
body. -/
theorem response_serialisation (body content_type : List Char) :
    responsePayload 200 body content_type =
      ['H', 'T', 'T', 'P', '/', '1', '.', '1', ' ', '2', '0', '0', ' ', 'O', 'K'] ++ CRLF
        ++ specHeaders content_type body.length ++ body
    ∧ responsePayload 400 body content_type =
      ['H', 'T', 'T', 'P', '/', '1', '.', '1', ' ', '4', '0', '0', ' ',
       'B', 'a', 'd', ' ', 'R', 'e', 'q', 'u', 'e', 's', 't'] ++ CRLF
        ++ specHeaders content_type body.length ++ body
    ∧ responsePayload 401 body content_type =
      ['H', 'T', 'T', 'P', '/', '1', '.', '1', ' ', '4', '0', '1', ' ',
       'U', 'n', 'a', 'u', 't', 'h', 'o', 'r', 'i', 'z', 'e', 'd'] ++ CRLF
        ++ specHeaders content_type body.length ++ body
    ∧ responsePayload 404 body content_type =
      ['H', 'T', 'T', 'P', '/', '1', '.', '1', ' ', '4', '0', '4', ' ',
       'N', 'o', 't', ' ', 'F', 'o', 'u', 'n', 'd'] ++ CRLF
        ++ specHeaders content_type body.length ++ body
    ∧ responsePayload 500 body content_type =
      ['H', 'T', 'T', 'P', '/', '1', '.', '1', ' ', '5', '0', '0', ' ',
       'I', 'n', 't', 'e', 'r', 'n', 'a', 'l', ' ', 'S', 'e', 'r', 'v', 'e', 'r', ' ',
       'E', 'r', 'r', 'o', 'r'] ++ CRLF
        ++ specHeaders content_type body.length ++ body := by
  have d200 : decimal 200 = ['2', '0', '0'] := by decide
  have d400 : decimal 400 = ['4', '0', '0'] := by decide
  have d401 : decimal 401 = ['4', '0', '1'] := by decide
  have d404 : decimal 404 = ['4', '0', '4'] := by decide
  have d500 : decimal 500 = ['5', '0', '0'] := by decide
  have r200 : reasonPhrase 200 = ['O', 'K'] := by decide
  have r400 : reasonPhrase 400 = ['B', 'a', 'd', ' ', 'R', 'e', 'q', 'u', 'e', 's', 't'] := by
    decide
  have r401 : reasonPhrase 401 =
      ['U', 'n', 'a', 'u', 't', 'h', 'o', 'r', 'i', 'z', 'e', 'd'] := by decide
  have r404 : reasonPhrase 404 = ['N', 'o', 't', ' ', 'F', 'o', 'u', 'n', 'd'] := by decide
  have r500 : reasonPhrase 500 =
      ['I', 'n', 't', 'e', 'r', 'n', 'a', 'l', ' ', 'S', 'e', 'r', 'v', 'e', 'r', ' ',
       'E', 'r', 'r', 'o', 'r'] := by decide
  refine ⟨?_, ?_, ?_, ?_, ?_⟩
  · simp [responsePayload, specHeaders, d200, r200]
  · simp [responsePayload, specHeaders, d400, r400]
  · simp [responsePayload, specHeaders, d401, r401]
  · simp [responsePayload, specHeaders, d404, r404]
  · simp [responsePayload, specHeaders, d500, r500]

/-! ## The health endpoint -/

theorem decimal_uptime (st : ServerState) (now : Int) (h : st.sStartTime ≤ now) :
    decimal (Int.tdiv (now - st.sStartTime) ticksPerMs) = (Nat.repr (uptimeMs st now)).toList := by
  have h0 : 0 ≤ now - st.sStartTime := by omega
  have e : Int.tdiv (now - st.sStartTime) ticksPerMs = ((uptimeMs st now : Nat) : Int) := by
    rw [Int.tdiv_eq_ediv h0 (by decide)]
    unfold uptimeMs ticksPerMs
    omega
  rw [e]
  unfold decimal
  have hn : ¬ (((uptimeMs st now : Nat) : Int) < 0) := by omega
  rw [if_neg hn, Int.natAbs_ofNat]

theorem uptimeMs_mono (st : ServerState) (now1 now2 : Int) (h : now1 ≤ now2) :
    uptimeMs st now1 ≤ uptimeMs st now2 := by
  unfold uptimeMs
  omega

/-- Claim C17.  An authorized `GET /v1/health` handled at a clock value `now` not
before the start instant is answered 200 with the body
`{"ok":true,"uptimeMs":<e>}`, where `e` is the whole number of milliseconds in
`now - start`, written as an unsigned decimal (so it is not negative); the
statics, queue and snapshot among them, are unchanged, and for a later clock
value of the same run the number is not smaller. -/
theorem health_reports_uptime (reads : List (List Char)) (now : Int) (st : ServerState)
    (req : ParsedRequest)
    (hparse : parseRequest (recvRequest reads) = ParseResult.ok req)
    (hauth : authorized st req = true)
    (hm : req.method = GET) (hp : req.path = pathHealth)
    (hnow : st.sStartTime ≤ now) :
    HandleClient reads now st =
      (some { code := 200, body := healthBody (uptimeMs st now),
              content_type := applicationJson }, st)
    ∧ (∀ now2, now ≤ now2 →
        HandleClient reads now2 (HandleClient reads now st).2 =
          (some { code := 200, body := healthBody (uptimeMs st now2),
                  content_type := applicationJson }, st)
        ∧ uptimeMs st now ≤ uptimeMs st now2) := by
  have h1 : ¬ (st.sApiKey ≠ [] ∧ req.api_key_header ≠ st.sApiKey) := by
    simp only [authorized, decide_eq_true_eq] at hauth
    rcases hauth with h | h
    · simp [h]
    · simp [h]
  have key : ∀ t, st.sStartTime ≤ t → HandleClient reads t st =
      (some { code := 200, body := healthBody (uptimeMs st t),
              content_type := applicationJson }, st) := by
    intro t ht
    rw [HandleClient_of_parse hparse]
    unfold dispatch
    rw [if_neg h1, if_pos ⟨hm, hp⟩]
    simp only [decimal_uptime st t ht, healthBody]
  refine ⟨key now hnow, ?_⟩
  intro now2 h2
  rw [key now hnow]
  exact ⟨key now2 (by omega), uptimeMs_mono st now now2 h2⟩

theorem health_reports_uptime_witness :
    HandleClient [healthRequest k1] 5123456789 (ServerLoop_begin 1000000000 runningK1) =
      (some { code := 200
              body := ['{', '"', 'o', 'k', '"', ':', 't', 'r', 'u', 'e', ',',
                       '"', 'u', 'p', 't', 'i', 'm', 'e', 'M', 's', '"', ':',
                       '4', '1', '2', '3', '}']
              content_type := applicationJson }, ServerLoop_begin 1000000000 runningK1) :=
  (health_reports_uptime [healthRequest k1] 5123456789 (ServerLoop_begin 1000000000 runningK1)
    { method := GET, path := pathHealth, api_key_header := k1, body := [] }
    (by decide) (by decide) rfl rfl (by decide)).1

/-! ## The size of the receive buffer -/

theorem frameHeaders_buffer (s : FrameState) : (frameHeaders s).buffer = s.buffer := by
  unfold frameHeaders
  split_ifs
  · rfl
  · cases findSub CRLFCRLF s.buffer <;> rfl

theorem recvLoop_length_le (reads : List (List Char)) (s : FrameState)
    (hreads : ∀ chunk ∈ reads, chunk.length ≤ 1024)
    (hs : s.buffer.length ≤ kMaxRequestSize - 1 + 1024) :
    (recvLoop reads s).buffer.length ≤ kMaxRequestSize - 1 + 1024 := by
  induction reads generalizing s with
  | nil => exact hs
  | cons chunk rest ih =>
    have hc := hreads chunk (List.mem_cons_self _ _)
    have hrest : ∀ c ∈ rest, c.length ≤ 1024 := fun c h => hreads c (List.mem_cons_of_mem _ h)
    unfold recvLoop
    by_cases h1 : s.buffer.length < kMaxRequestSize
    · rw [if_pos h1]
      by_cases h2 : chunk = []
      · rw [if_pos h2]
        exact hs
      · rw [if_neg h2]
        have hb : (frameHeaders { s with buffer := s.buffer ++ chunk }).buffer.length
            ≤ kMaxRequestSize - 1 + 1024 := by
          rw [frameHeaders_buffer]
          simp only [List.length_append]
          omega
        simp only
        split_ifs
        · exact hb
        · exact ih _ hrest hb
    · rw [if_neg h1]
      exact hs

theorem findSub_fill (n : Nat) : findSub CRLFCRLF (fill n) = none := by
  apply findSub_eq_none
  intro h
  have hmem : '\r' ∈ fill n := h.subset (by simp [CRLFCRLF])
  have := List.eq_of_mem_replicate hmem
  exact absurd this (by decide)

theorem recvLoop_fill (n m k : Nat) (rest : List (List Char)) (header_end : Option Nat)
    (hn : n < kMaxRequestSize) (hm : 0 < m) (hk : n + m = k) :
    recvLoop (fill m :: rest)
        { buffer := fill n, headers_complete := false, header_end := header_end,
          content_length := 0 } =
      recvLoop rest
        { buffer := fill k, headers_complete := false, header_end := none,
          content_length := 0 } := by
  have hne : fill m ≠ [] := by
    intro e
    have : (fill m).length = 0 := by rw [e]; rfl
    simp [fill] at this
    omega
  have happ : fill n ++ fill m = fill k := by
    simp [fill, List.append_replicate_replicate, hk]
  have hlen : (fill n).length < kMaxRequestSize := by simpa [fill] using hn
  rw [recvLoop, if_pos hlen, if_neg hne]
  simp only [happ, frameHeaders, findSub_fill, frameDone, Bool.false_eq_true, if_false]

theorem fill_length (n : Nat) : (fill n).length = n := by
  unfold fill
  exact List.length_replicate n 'a'

theorem recvRequest_eq (reads : List (List Char)) :
    recvRequest reads = (recvLoop reads FrameState.init).buffer := rfl

theorem recvLoop_eightReads (rest : List (List Char)) :
    recvLoop (eightReads ++ rest) (FrameState.mk (fill 0) false none 0) =
      recvLoop rest (FrameState.mk (fill 8191) false none 0) := by
  simp only [eightReads, List.cons_append, List.nil_append]
  rw [recvLoop_fill 0 1024 1024 _ _ (by decide) (by decide) rfl,
    recvLoop_fill 1024 1024 2048 _ _ (by decide) (by decide) rfl,
    recvLoop_fill 2048 1024 3072 _ _ (by decide) (by decide) rfl,
    recvLoop_fill 3072 1024 4096 _ _ (by decide) (by decide) rfl,
    recvLoop_fill 4096 1024 5120 _ _ (by decide) (by decide) rfl,
    recvLoop_fill 5120 1024 6144 _ _ (by decide) (by decide) rfl,
    recvLoop_fill 6144 1024 7168 _ _ (by decide) (by decide) rfl,
    recvLoop_fill 7168 1023 8191 _ _ (by decide) (by decide) rfl]

theorem recvRequest_eightReads : recvRequest eightReads = fill 8191 := by
  have h0 : FrameState.init = FrameState.mk (fill 0) false none 0 := rfl
  have h := recvLoop_eightReads []
  rw [List.append_nil] at h
  rw [recvRequest_eq, h0, h]
  simp only [recvLoop]

theorem recvRequest_nineReads : recvRequest nineReads = fill 9215 := by
  have h0 : FrameState.init = FrameState.mk (fill 0) false none 0 := rfl
  rw [recvRequest_eq, h0, nineReads, recvLoop_eightReads,
    recvLoop_fill 8191 1024 9215 _ _ (by decide) (by decide) rfl]
  simp only [recvLoop]

/-- Claim C14, the code at the failing input.  The receive loop tests
`buffer.size() < kMaxRequestSize` before each `recv` and then appends whatever
that call returns: after seven reads of 1024 bytes and one of 1023 bytes the
buffer holds 8191 bytes, one more read of 1024 bytes is made, and the buffer
ends with 9215 bytes, more than `kMaxRequestSize`. -/
theorem receive_buffer_exceeds_cap :
    (recvRequest eightReads).length = 8191
    ∧ (recvRequest nineReads).length = 9215
    ∧ kMaxRequestSize < (recvRequest nineReads).length
    ∧ (∀ chunk ∈ nineReads, 1 ≤ chunk.length ∧ chunk.length ≤ 1024) := by
  refine ⟨by rw [recvRequest_eightReads, fill_length],
    by rw [recvRequest_nineReads, fill_length], ?_, ?_⟩
  · rw [recvRequest_nineReads, fill_length]
    decide
  · intro chunk hc
    simp only [nineReads, eightReads, List.cons_append, List.nil_append, List.mem_cons,
      List.mem_singleton, List.not_mem_nil, or_false] at hc
    rcases hc with h | h | h | h | h | h | h | h | h <;> subst h <;> rw [fill_length] <;>
      decide

/-! ## Which header decides the auth guard -/

theorem apiKeyLoop_eq_foldl (fuel : Nat) (stream acc : List Char) :
    apiKeyLoop fuel stream acc =
      ((getlines fuel stream).map stripCR).foldl
        (fun a line => if isApiKeyLine line = true then headerValue line else a) acc := by
  induction fuel generalizing stream acc with
  | zero => simp [apiKeyLoop, getlines]
  | succ fuel ih =>
    unfold apiKeyLoop getlines
    cases hg : getline stream with
    | none => simp
    | some lr =>
      obtain ⟨line, rest⟩ := lr
      simp only [List.map_cons, List.foldl_cons]
      cases hf : findChar ':' (stripCR line) with
      | none =>
        simp only [isApiKeyLine, hf, Bool.false_eq_true, if_false]
        exact ih rest acc
      | some sep =>
        simp only [isApiKeyLine, headerValue, hf, decide_eq_true_eq]
        exact ih rest _

theorem foldl_last_match (lines : List (List Char)) (acc : List Char) :
    lines.foldl (fun a line => if isApiKeyLine line = true then headerValue line else a) acc =
      match (lines.filter isApiKeyLine).getLast? with
      | none => acc
      | some line => headerValue line := by
  induction lines generalizing acc with
  | nil => rfl
  | cons l ls ih =>
    rw [List.foldl_cons, ih]
    by_cases hl : isApiKeyLine l = true
    · rw [if_pos hl, List.filter_cons_of_pos hl]
      cases hls : (ls.filter isApiKeyLine) with
      | nil => simp
      | cons x xs =>
        rw [List.getLast?_cons_cons]
        obtain ⟨y, hy⟩ : ∃ y, (x :: xs).getLast? = some y :=
          ⟨_, List.getLast?_eq_getLast _ (by simp)⟩
        simp [hy]
    · rw [if_neg hl, List.filter_cons_of_neg hl]

theorem apiKeyHeaderOf_eq (buffer : List Char) :
    apiKeyHeaderOf buffer = lastApiKeyValue (headerLinesOf buffer) := by
  unfold apiKeyHeaderOf lastApiKeyValue headerLinesOf
  rw [apiKeyLoop_eq_foldl, foldl_last_match]

theorem dispatch_authorized (req : ParsedRequest) (now : Int) (st : ServerState)
    (h : req.api_key_header = st.sApiKey) :
    (dispatch req now st).1 = (dispatch req now { st with sApiKey := [] }).1
    ∧ (dispatch req now st).2.sMessageQueue =
      (dispatch req now { st with sApiKey := [] }).2.sMessageQueue := by
  unfold dispatch
  have h1 : ¬ (st.sApiKey ≠ [] ∧ req.api_key_header ≠ st.sApiKey) := by simp [h]
  rw [if_neg h1]
  simp only [ne_eq, not_true_eq_false, false_and, if_false]
  split_ifs <;> (try cases ExtractJsonString req.body textKey) <;> simp

/-- Claim C19.  With the secret `k` configured, a well-formed request in which the last
header line read as an `x-api-key` header (its name, trimmed and with ASCII
letters lower-cased, is `x-api-key`) has the trimmed value `k` passes the auth
guard: it is not answered 401 and gets the response and the queue it would get
with auth disabled, that is, it is routed by method and path.  The value the
guard compares is that of the last such line, so two buffers with the same
`x-api-key` lines get the same value whatever their other header lines. -/
theorem auth_accepts_matching_key (reads : List (List Char)) (now : Int) (st : ServerState)
    (line : List Char)
    (hterm : CRLFCRLF <:+: recvRequest reads)
    (hline : 2 ≤ (requestLineOf (recvRequest reads)).count ' ')
    (hlast : ((headerLinesOf (recvRequest reads)).filter isApiKeyLine).getLast? = some line)
    (hval : headerValue line = st.sApiKey) :
    (∃ r, (HandleClient reads now st).1 = some r ∧ r.code ≠ 401)
    ∧ (HandleClient reads now st).1 = (HandleClient reads now { st with sApiKey := [] }).1
    ∧ (HandleClient reads now st).2.sMessageQueue =
      (HandleClient reads now { st with sApiKey := [] }).2.sMessageQueue
    ∧ (∀ buffer, (headerLinesOf buffer).filter isApiKeyLine =
          (headerLinesOf (recvRequest reads)).filter isApiKeyLine →
        apiKeyHeaderOf buffer = apiKeyHeaderOf (recvRequest reads)) := by
  obtain ⟨method, path, hparse⟩ := parseRequest_of_framed _ hterm hline
  have hkey : apiKeyHeaderOf (recvRequest reads) = st.sApiKey := by
    rw [apiKeyHeaderOf_eq, lastApiKeyValue, hlast]
    exact hval
  have hd := dispatch_authorized
    { method := method, path := path, api_key_header := apiKeyHeaderOf (recvRequest reads),
      body := bodyOf (recvRequest reads) } now st hkey
  have h1 : (HandleClient reads now st).1 =
      (HandleClient reads now { st with sApiKey := [] }).1 := by
    rw [HandleClient_of_parse hparse, HandleClient_of_parse hparse, hd.1]
  refine ⟨?_, h1, ?_, ?_⟩
  · rw [h1, HandleClient_of_parse hparse]
    exact ⟨_, rfl, dispatch_code_no_secret _ now _ rfl⟩
  · rw [HandleClient_of_parse hparse, HandleClient_of_parse hparse]
    exact hd.2
  · intro buffer hb
    rw [apiKeyHeaderOf_eq, apiKeyHeaderOf_eq, lastApiKeyValue, lastApiKeyValue, hb]

theorem auth_accepts_matching_key_witness :
    (HandleClient
      [buildRequest stateRequestLine [lowerWrongKeyLine, hostLine, paddedKeyLine, hostLine] []]
      0 runningK1).1 =
      some { code := 200, body := emptyObject, content_type := applicationJson } := by
  have h := auth_accepts_matching_key
    [buildRequest stateRequestLine [lowerWrongKeyLine, hostLine, paddedKeyLine, hostLine] []]
    0 runningK1 paddedKeyLine (by decide!) (by decide!) (by decide!) (by decide!)
  rw [h.2.1]
  decide!

/-! ## The write loop -/

theorem subSize_le (remaining sent : Nat) (h : sent ≤ remaining) (hr : remaining < 2 ^ 64) :
    subSize remaining sent = remaining - sent := by
  unfold subSize wrap64
  have hs : sent % 2 ^ 64 = sent := Nat.mod_eq_of_lt (by omega)
  rw [hs]
  have e : remaining + (2 ^ 64 - sent) = (remaining - sent) + 2 ^ 64 := by omega
  rw [e, Nat.add_mod_right]
  exact Nat.mod_eq_of_lt (by omega)

theorem sendLoop_good (results : List Int) (data : List Char) (remaining : Nat)
    (hlen : data.length = remaining) (hsize : remaining < 2 ^ 64)
    (hgood : GoodResults results remaining) (hfuel : remaining ≤ results.length) :
    (sendLoop results data remaining).exit = SendExit.done
    ∧ (sendLoop results data remaining).calls ≤ remaining
    ∧ (sendLoop results data remaining).taken.flatten = data := by
  induction results generalizing data remaining with
  | nil =>
    have h0 : remaining = 0 := by simpa using hfuel
    have hd : data = [] := List.length_eq_zero.mp (by omega)
    simp [sendLoop, h0, hd]
  | cons sent results ih =>
    by_cases h0 : remaining = 0
    · have hd : data = [] := List.length_eq_zero.mp (by omega)
      simp [sendLoop, h0, hd]
    · rcases hgood with hg | ⟨h1, h2, hg⟩
      · exact absurd hg h0
      · have hpos : ¬ sent ≤ 0 := by omega
        have hle : sent.toNat ≤ remaining := by omega
        have hsub : subSize remaining sent.toNat = remaining - sent.toNat :=
          subSize_le _ _ hle hsize
        have hrec := ih (data.drop sent.toNat) (remaining - sent.toNat)
          (by rw [List.length_drop]; omega) (by omega) hg
          (by simp only [List.length_cons] at hfuel; omega)
        rw [sendLoop, if_neg h0, if_neg hpos]
        simp only [hsub]
        refine ⟨hrec.1, by omega, ?_⟩
        rw [List.flatten_cons, hrec.2.2, List.take_append_drop]

theorem sendLoop_abort (pre : List Int) (sent : Int) (post : List Int) (data : List Char)
    (remaining : Nat) (hlen : data.length = remaining) (hsize : remaining < 2 ^ 64)
    (hgood : GoodResults pre remaining)
    (hleft : ((pre.map Int.toNat).sum : Nat) < remaining) (hsent : sent ≤ 0) :
    (sendLoop (pre ++ sent :: post) data remaining).exit = SendExit.aborted
    ∧ (sendLoop (pre ++ sent :: post) data remaining).calls = pre.length + 1
    ∧ (sendLoop (pre ++ sent :: post) data remaining).taken.flatten
        = data.take (pre.map Int.toNat).sum := by
  induction pre generalizing data remaining with
  | nil =>
    have h0 : remaining ≠ 0 := by
      simp only [List.map_nil, List.sum_nil] at hleft
      omega
    simp [sendLoop, h0, hsent]
  | cons r pre ih =>
    simp only [List.map_cons, List.sum_cons] at hleft
    have h0 : remaining ≠ 0 := by omega
    rcases hgood with hg | ⟨h1, h2, hg⟩
    · exact absurd hg h0
    · have hpos : ¬ r ≤ 0 := by omega
      have hle : r.toNat ≤ remaining := by omega
      have hsub : subSize remaining r.toNat = remaining - r.toNat :=
        subSize_le _ _ hle hsize
      have hrec := ih (data.drop r.toNat) (remaining - r.toNat)
        (by rw [List.length_drop]; omega) (by omega) hg (by omega)
      rw [List.cons_append, sendLoop, if_neg h0, if_neg hpos]
      simp only [hsub, List.length_cons, List.map_cons, List.sum_cons]
      refine ⟨hrec.1, by rw [hrec.2.1], ?_⟩
      rw [List.flatten_cons, hrec.2.2, List.take_add]

/-- Claim C20.  With `send` modelled by the list of results of its successive calls
(at least as many as the payload has bytes): if every call the write loop of
`SendResponse` makes returns between 1 and the number of bytes still to send,
the loop ends with nothing left after at most `length payload` calls, and the
bytes taken over by the calls, put together in order, are exactly the payload;
if, after calls that returned such values and left something to send, a call
returns a value `<= 0`, the loop stops at that call, whatever results would
follow, having handed over exactly the bytes before it. -/
theorem send_loop_reliable (results : List Int) (code : Int) (body content_type : List Char)
    (hsize : (responsePayload code body content_type).length < 2 ^ 64) :
    (GoodResults results (responsePayload code body content_type).length →
      (responsePayload code body content_type).length ≤ results.length →
      (SendResponse results code body content_type).exit = SendExit.done
      ∧ (SendResponse results code body content_type).calls
          ≤ (responsePayload code body content_type).length
      ∧ (SendResponse results code body content_type).taken.flatten
          = responsePayload code body content_type)
    ∧ (∀ pre sent post, results = pre ++ sent :: post →
      GoodResults pre (responsePayload code body content_type).length →
      (pre.map Int.toNat).sum < (responsePayload code body content_type).length →
      sent ≤ 0 →
      (SendResponse results code body content_type).exit = SendExit.aborted
      ∧ (SendResponse results code body content_type).calls = pre.length + 1
      ∧ (SendResponse results code body content_type).taken.flatten
          = (responsePayload code body content_type).take (pre.map Int.toNat).sum) := by
  constructor
  · intro hgood hfuel
    exact sendLoop_good results _ _ rfl hsize hgood hfuel
  · intro pre sent post hres hgood hleft hsent
    rw [hres]
    exact sendLoop_abort pre sent post _ _ rfl hsize hgood hleft hsent

theorem send_loop_reliable_witness :
    ((SendResponse twoWrites 401 bodyUnauthorized applicationJson).exit = SendExit.done
      ∧ (SendResponse twoWrites 401 bodyUnauthorized applicationJson).calls ≤ 124
      ∧ (SendResponse twoWrites 401 bodyUnauthorized applicationJson).taken.flatten
          = responsePayload 401 bodyUnauthorized applicationJson)
    ∧ ((SendResponse brokenWrite 401 bodyUnauthorized applicationJson).exit = SendExit.aborted
      ∧ (SendResponse brokenWrite 401 bodyUnauthorized applicationJson).calls = 2
      ∧ (SendResponse brokenWrite 401 bodyUnauthorized applicationJson).taken.flatten
          = (responsePayload 401 bodyUnauthorized applicationJson).take 100) :=
  ⟨(send_loop_reliable twoWrites 401 bodyUnauthorized applicationJson (by decide!)).1
      (Or.inr ⟨by decide!, by decide!, Or.inr ⟨by decide!, by decide!, Or.inl (by decide!)⟩⟩)
      (by decide!),
   (send_loop_reliable brokenWrite 401 bodyUnauthorized applicationJson (by decide!)).2
      [100] (-1) [24] rfl (Or.inr ⟨by decide!, by decide!, trivial⟩) (by decide!) (by decide!)⟩

/-! ## Escaping and extracting -/

theorem scanValue_escape (d : Char) (cs acc : List Char) :
    scanValue ('\\' :: d :: cs) false acc =
      scanValue cs false (acc ++ [if d = 'n' then '\n' else if d = 't' then '\t' else d]) := by
  rw [scanValue]
  simp only [Bool.false_eq_true, if_false, if_true]
  rw [scanValue]
  simp only [if_true]

theorem scanValue_enc (s rest acc : List Char)
    (hlen : acc.length + s.length ≤ kMaxMessageSize) :
    (scanValue (enc s ++ '"' :: rest) false acc).2 = acc ++ s
    ∧ (scanValue (enc s ++ '"' :: rest) false acc).1 ≠ ScanExit.eof := by
  induction s generalizing acc with
  | nil => simp [enc, scanValue]
  | cons c s ih =>
    have hlen' : (acc ++ [c]).length + s.length ≤ kMaxMessageSize := by
      simp only [List.length_append, List.length_cons, List.length_nil] at hlen ⊢
      omega
    have hrec := ih (acc ++ [c]) hlen'
    have happ : acc ++ [c] ++ s = acc ++ c :: s := by simp
    rw [happ] at hrec
    by_cases h1 : c = '"'
    · subst h1
      have e : enc ('"' :: s) ++ '"' :: rest = '\\' :: '"' :: (enc s ++ '"' :: rest) := by
        simp [enc, encByte]
      rw [e, scanValue_escape '"']
      simpa using hrec
    · by_cases h2 : c = '\\'
      · subst h2
        have e : enc ('\\' :: s) ++ '"' :: rest = '\\' :: '\\' :: (enc s ++ '"' :: rest) := by
          simp [enc, encByte]
        rw [e, scanValue_escape '\\']
        simpa using hrec
      · by_cases h3 : c = '\n'
        · subst h3
          have e : enc ('\n' :: s) ++ '"' :: rest = '\\' :: 'n' :: (enc s ++ '"' :: rest) := by
            simp [enc, encByte]
          rw [e, scanValue_escape 'n']
          simpa using hrec
        · by_cases h4 : c = '\t'
          · subst h4
            have e : enc ('\t' :: s) ++ '"' :: rest
                = '\\' :: 't' :: (enc s ++ '"' :: rest) := by
              simp [enc, encByte]
            rw [e, scanValue_escape 't']
            simpa using hrec
          · have e : enc (c :: s) ++ '"' :: rest = c :: (enc s ++ '"' :: rest) := by
              simp [enc, encByte, h1, h2, h3, h4]
            rw [e, scanValue_cons_plain c _ acc h2 h1]
            by_cases hcap : kMaxMessageSize ≤ (acc ++ [c]).length
            · rw [if_pos hcap]
              have hs : s = [] := by
                apply List.length_eq_zero.mp
                simp only [List.length_append, List.length_cons, List.length_nil] at hcap hlen
                omega
              subst hs
              simp
            · rw [if_neg hcap]
              exact hrec

/-- Claim C21.  For every byte string `s` of at most 512 bytes, with `enc s` its
escaped form (double quote, backslash, line feed and tab written as backslash
plus `"`, `\`, `n`, `t`, every other byte kept), `ExtractJsonString` applied to
the body `{"text":"enc s"}` with the key `text` reports a value, and the value is
exactly `s`. -/
theorem extract_of_escaped (s : List Char) (hlen : s.length ≤ kMaxMessageSize) :
    ExtractJsonString (textBody (enc s)) textKey = some s := by
  have hdrop : (textBody (enc s)).drop (8 + 1) = enc s ++ '"' :: ['}'] := by simp [textBody]
  have hscan := scanValue_enc s ['}'] [] (by simpa using hlen)
  rw [List.nil_append] at hscan
  unfold ExtractJsonString
  rw [firstQuote_textBody]
  simp only [hdrop]
  have hcap := scanValue_cap_ne_nil (enc s ++ ['"', '}']) false []
  revert hscan hcap
  cases scanValue (enc s ++ ['"', '}']) false [] with
  | mk ex res =>
    intro hscan hcap
    simp only at hscan hcap
    cases ex with
    | quote => rw [hscan.1]
    | cap =>
      simp only
      rw [if_pos (hcap rfl), hscan.1]
    | eof => exact absurd rfl hscan.2

theorem extract_of_escaped_witness :
    ExtractJsonString
      (textBody ['a', '\\', '"', 'b', '\\', '\\', 'c', '\\', 'n', 'n', '\\', 't', 't'])
      textKey = some specialText :=
  extract_of_escaped specialText (by decide)

/-! ## The header loop of the framing step -/

theorem contentLengthLoop_succ (fuel : Nat) (stream : List Char) (acc : Nat) :
    contentLengthLoop (fuel + 1) stream acc =
      match getline stream with
      | none => acc
      | some (line, rest) =>
        contentLengthLoop fuel rest (contentLengthStep acc (stripCR line)) := by
  rw [contentLengthLoop]
  cases hg : getline stream with
  | none => rfl
  | some lr =>
    obtain ⟨line, rest⟩ := lr
    simp only
    cases hf : findChar ':' (stripCR line) with
    | none => simp [contentLengthStep, isContentLengthLine, hf]
    | some sep =>
      simp [contentLengthStep, isContentLengthLine, declaredLength, headerValue, hf]

theorem contentLengthLoop_nil (fuel : Nat) (acc : Nat) :
    contentLengthLoop fuel [] acc = acc := by
  cases fuel <;> simp [contentLengthLoop, getline]

theorem contentLengthLoop_eq_foldl (fuel : Nat) (stream : List Char) (acc : Nat) :
    contentLengthLoop fuel stream acc =
      ((getlines fuel stream).map stripCR).foldl contentLengthStep acc := by
  induction fuel generalizing stream acc with
  | zero => simp [contentLengthLoop, getlines]
  | succ fuel ih =>
    rw [contentLengthLoop_succ]
    unfold getlines
    cases hg : getline stream with
    | none => simp
    | some lr =>
      obtain ⟨line, rest⟩ := lr
      simp only [List.map_cons, List.foldl_cons]
      exact ih rest _

theorem foldl_contentLengthStep (lines : List (List Char)) (acc : Nat) :
    lines.foldl contentLengthStep acc =
      match (lines.filter isContentLengthLine).getLast? with
      | none => acc
      | some line => declaredLength line := by
  induction lines generalizing acc with
  | nil => rfl
  | cons l ls ih =>
    rw [List.foldl_cons, ih]
    by_cases hl : isContentLengthLine l = true
    · rw [List.filter_cons_of_pos hl]
      cases hls : (ls.filter isContentLengthLine) with
      | nil => simp [contentLengthStep, hl]
      | cons x xs =>
        rw [List.getLast?_cons_cons]
        obtain ⟨y, hy⟩ : ∃ y, (x :: xs).getLast? = some y :=
          ⟨_, List.getLast?_eq_getLast _ (by simp)⟩
        simp [hy]
    · rw [List.filter_cons_of_neg hl]
      simp [contentLengthStep, hl]

theorem Trim_append_CR (v : List Char) : Trim (v ++ ['\r']) = Trim v := by
  have hcr : isspace '\r' = true := by decide
  unfold Trim
  rw [List.dropWhile_append]
  by_cases h : (v.dropWhile isspace).isEmpty = true
  · rw [if_pos h]
    have e : v.dropWhile isspace = [] := List.isEmpty_iff.mp h
    rw [e]
    simp [List.dropWhile, hcr]
  · rw [if_neg h, List.reverse_append]
    simp [List.dropWhile, hcr]

theorem contentLengthStep_append_CR (acc : Nat) (m : List Char) :
    contentLengthStep acc (m ++ ['\r']) = contentLengthStep acc m := by
  unfold contentLengthStep isContentLengthLine declaredLength headerValue
  rw [findChar_append_singleton ':' '\r' m (by decide)]
  cases hf : findChar ':' m with
  | none => rfl
  | some sep =>
    have hlt := findChar_lt ':' m sep hf
    simp only
    rw [List.take_append_of_le_length (by omega), List.drop_append_of_le_length (by omega),
      Trim_append_CR]

theorem contentLengthStep_stripCR (acc : Nat) (l : List Char) :
    contentLengthStep acc (stripCR l) = contentLengthStep acc l := by
  unfold stripCR
  split_ifs with h
  · have e : l = l.dropLast ++ ['\r'] := by
      have hne : l ≠ [] := by
        rintro rfl
        simp at h
      have h1 := List.dropLast_append_getLast hne
      rw [List.getLast?_eq_getLast _ hne] at h
      simp only [Option.some.injEq] at h
      rw [h] at h1
      exact h1.symm
    rw [e, contentLengthStep_append_CR, List.dropLast_concat]
  · rfl

theorem getline_line (l r : List Char) (hl : '\n' ∉ l) :
    getline (l ++ '\n' :: r) = some (l, r) := by
  have hp : ∀ a ∈ l, (fun c => c != '\n') a = true := by
    intro a ha
    have : a ≠ '\n' := fun e => hl (e ▸ ha)
    simp [this]
  have hne : l ++ '\n' :: r ≠ [] := by simp
  cases hs : l ++ '\n' :: r with
  | nil => exact absurd hs hne
  | cons c cs =>
    simp only [getline]
    rw [← hs, List.takeWhile_append_of_pos hp, List.dropWhile_append_of_pos hp]
    simp [List.takeWhile, List.dropWhile]

theorem getline_last_line (l : List Char) (hl : '\n' ∉ l) :
    getline (l ++ ['\r', '\n']) = some (l ++ ['\r'], []) := by
  have e : l ++ ['\r', '\n'] = (l ++ ['\r']) ++ '\n' :: [] := by simp
  rw [e]
  apply getline_line
  intro h
  rcases List.mem_append.mp h with h1 | h1
  · exact hl h1
  · simp at h1

/-- The header loop reads the same `content-length` value from a header block
whether or not the block carries the line break that precedes the empty line. -/
theorem contentLengthLoop_append_CRLF (f2 : Nat) :
    ∀ (f1 : Nat) (X : List Char) (acc : Nat), X.length + 2 < f1 → X.length < f2 →
      contentLengthLoop f1 (X ++ ['\r', '\n']) acc = contentLengthLoop f2 X acc := by
  induction f2 with
  | zero => intro f1 X acc _ h2; omega
  | succ f2 ih =>
    intro f1 X acc h1 h2
    obtain ⟨f1, rfl⟩ : ∃ k, f1 = k + 1 := ⟨f1 - 1, by omega⟩
    rw [contentLengthLoop_succ, contentLengthLoop_succ]
    by_cases hmem : '\n' ∈ X
    · obtain ⟨l, r, hX, hl⟩ := List.eq_append_cons_of_mem hmem
      have e : X ++ ['\r', '\n'] = l ++ '\n' :: (r ++ ['\r', '\n']) := by
        rw [hX]
        simp
      rw [e, getline_line _ _ hl, hX, getline_line _ _ hl]
      simp only
      have hlen : X.length = l.length + (r.length + 1) := by
        rw [hX]
        simp
      exact ih f1 r _ (by omega) (by omega)
    · by_cases hne : X = []
      · subst hne
        have e : getline ([] ++ ['\r', '\n']) = some (['\r'], []) := by
          simp [getline, List.takeWhile, List.dropWhile]
        rw [e]
        simp [getline, contentLengthLoop_nil, contentLengthStep, isContentLengthLine,
          stripCR, findChar]
      · rw [getline_last_line X hmem, getline_no_newline X hne hmem]
        simp only
        rw [contentLengthLoop_nil, contentLengthLoop_nil]
        have e : stripCR (X ++ ['\r']) = X := by
          unfold stripCR
          simp
        rw [e, contentLengthStep_stripCR]

/-! ## The terminator in a prefix of the stream -/

theorem findSub_append_of_some (pat a b : List Char) (n : Nat)
    (h : findSub pat a = some n) : findSub pat (a ++ b) = some n := by
  induction a generalizing n with
  | nil =>
    by_cases hp : pat = []
    · subst hp
      simp only [findSub, if_true, Option.some.injEq] at h
      subst h
      cases b <;> simp [findSub]
    · simp [findSub, hp] at h
  | cons x xs ih =>
    by_cases hp : pat.isPrefixOf (x :: xs) = true
    · have h0 : n = 0 := by
        simp only [findSub, hp, if_true, Option.some.injEq] at h
        exact h.symm
      subst h0
      have hp2 : pat.isPrefixOf (x :: xs ++ b) = true :=
        List.isPrefixOf_iff_prefix.mpr
          ((List.isPrefixOf_iff_prefix.mp hp).trans (List.prefix_append _ _))
      simp only [List.cons_append] at hp2
      simp [findSub, hp2]
    · simp only [findSub, hp, Bool.false_eq_true, if_false, Option.map_eq_some'] at h
      obtain ⟨k, hk, rfl⟩ := h
      have hlen : pat.length ≤ (x :: xs).length := by
        have h1 := (findSub_some_isPrefix pat xs k hk).length_le
        rw [List.length_drop] at h1
        simp only [List.length_cons]
        omega
      have hp2 : ¬ pat.isPrefixOf (x :: (xs ++ b)) = true := by
        intro hc
        have h1 : pat <+: (x :: xs) ++ b := List.isPrefixOf_iff_prefix.mp hc
        exact hp (List.isPrefixOf_iff_prefix.mpr
          (List.prefix_of_prefix_length_le h1 (List.prefix_append _ _) hlen))
      simp [findSub, hp2, ih k hk]

theorem take_header_block (stream : List Char) (he : Nat)
    (h : findSub CRLFCRLF stream = some he) :
    stream.take (he + 2) = stream.take he ++ ['\r', '\n'] ∧ he + 4 ≤ stream.length := by
  obtain ⟨t, ht⟩ := findSub_some_isPrefix _ _ _ h
  have hle := findSub_le_length _ _ _ h
  have hs : stream = stream.take he ++ (CRLFCRLF ++ t) := by
    rw [ht, List.take_append_drop]
  have hl : (stream.take he).length = he := by
    rw [List.length_take]
    omega
  constructor
  · have key : ∀ A : List Char,
        (A ++ (CRLFCRLF ++ t)).take (A.length + 2) = A ++ ['\r', '\n'] := by
      intro A
      rw [List.take_append]
      simp [CRLFCRLF]
    have h2 := key (stream.take he)
    rw [hl, ← hs] at h2
    exact h2
  · have := congrArg List.length hs
    rw [List.length_append, hl] at this
    simp only [CRLFCRLF, List.length_append, List.length_cons, List.length_nil] at this
    omega

/-- The framing step reads, from the header block of a stream with exactly one
Content-Length header, the length that header declares. -/
theorem framing_content_length (stream h : List Char) (he acc : Nat)
    (hfind : findSub CRLFCRLF stream = some he)
    (hone : contentLengthHeaders stream = [h]) :
    contentLengthLoop ((stream.take (he + 2)).length + 1) (stream.take (he + 2)) acc
      = declaredLength h := by
  rw [(take_header_block stream he hfind).1]
  rw [contentLengthLoop_append_CRLF ((stream.take he).length + 1) _ (stream.take he) acc
    (by simp) (by omega)]
  unfold contentLengthHeaders headerLinesOf headerBlockOf at hone
  simp only [hfind] at hone
  rw [contentLengthLoop_succ]
  cases hg : getline (stream.take he) with
  | none =>
    simp only [headerStream, hg] at hone
    simp [getlines, getline] at hone
  | some lr =>
    obtain ⟨l0, rest⟩ := lr
    have hr := getline_rest_length _ _ _ hg
    simp only [headerStream, hg] at hone
    simp only
    rw [contentLengthLoop_fuel _ (rest.length + 1) rest _ hr (by omega),
      contentLengthLoop_eq_foldl, foldl_contentLengthStep, hone]
    rfl

/-! ## The receive loop on a stream delivered in pieces -/

theorem wrap64_small (n : Nat) (h : n ≤ kMaxRequestSize) : wrap64 n = n := by
  unfold wrap64
  apply Nat.mod_eq_of_lt
  have h1 : kMaxRequestSize = 8192 := rfl
  have h2 : (8192 : Nat) < 2 ^ 64 := by norm_num
  omega

theorem frameDone_complete (s : FrameState) (he k : Nat)
    (hc : s.headers_complete = true) (hh : s.header_end = some he)
    (hsum : he + 4 + s.content_length = s.buffer.length + k)
    (hsmall : he + 4 + s.content_length ≤ kMaxRequestSize) :
    frameDone s = true ↔ k = 0 := by
  unfold frameDone
  rw [hc, hh]
  simp only [decide_eq_true_eq]
  rw [wrap64_small (he + 4) (by omega), wrap64_small _ hsmall]
  omega

theorem frameDone_incomplete (s : FrameState) (hc : s.headers_complete = false) :
    frameDone s = false := by
  unfold frameDone
  rw [hc]

/-- One iteration of the receive loop on a stream with one Content-Length header
that declares the length of the body: the framing variables stay in agreement
with the stream, and the loop is left exactly when nothing of the stream is
outstanding. -/
theorem frameHeaders_step (stream h : List Char) (he : Nat)
    (hfind : findSub CRLFCRLF stream = some he)
    (hone : contentLengthHeaders stream = [h])
    (hbody : he + 4 + declaredLength h = stream.length)
    (hsize : stream.length ≤ kMaxRequestSize)
    (s : FrameState) (chunk t : List Char)
    (hinv : framingOk he (declaredLength h) s)
    (hsplit : s.buffer ++ chunk ++ t = stream) :
    framingOk he (declaredLength h) (frameHeaders { s with buffer := s.buffer ++ chunk })
    ∧ (frameDone (frameHeaders { s with buffer := s.buffer ++ chunk }) = true ↔ t = []) := by
  have hlen : stream.length = s.buffer.length + chunk.length + t.length := by
    rw [← hsplit, List.length_append, List.length_append]
  rcases hinv with ⟨hc, hcl⟩ | ⟨hc, hh, hcl⟩
  · unfold frameHeaders
    simp only [hc, Bool.false_eq_true, if_false]
    cases hf : findSub CRLFCRLF (s.buffer ++ chunk) with
    | none =>
      simp only
      refine ⟨Or.inl ⟨rfl, hcl⟩, ?_⟩
      rw [frameDone_incomplete _ rfl]
      constructor
      · intro hx
        exact absurd hx (by simp)
      · intro ht
        rw [ht, List.append_nil] at hsplit
        rw [hsplit, hfind] at hf
        exact absurd hf (by simp)
    | some n =>
      have hn : n = he := by
        have h1 := findSub_append_of_some _ _ t _ hf
        rw [hsplit, hfind] at h1
        exact (Option.some.inj h1).symm
      subst hn
      have h4 : n + 4 ≤ (s.buffer ++ chunk).length := (take_header_block _ _ hf).2
      have htake : stream.take (n + 2) = (s.buffer ++ chunk).take (n + 2) := by
        rw [← hsplit]
        exact List.take_append_of_le_length (by omega)
      have hval := framing_content_length stream h n s.content_length hfind hone
      simp only
      rw [← htake, hval]
      refine ⟨Or.inr ⟨rfl, rfl, rfl⟩, ?_⟩
      have hsum : n + 4 + declaredLength h = (s.buffer ++ chunk).length + t.length := by
        rw [List.length_append]
        omega
      have hsmall : n + 4 + declaredLength h ≤ kMaxRequestSize := by omega
      exact (frameDone_complete _ n t.length rfl rfl hsum hsmall).trans List.length_eq_zero
  · unfold frameHeaders
    simp only [hc, if_true]
    refine ⟨Or.inr ⟨rfl, hh, hcl⟩, ?_⟩
    have hsum : he + 4 + s.content_length = (s.buffer ++ chunk).length + t.length := by
      rw [List.length_append]
      omega
    have hsmall : he + 4 + s.content_length ≤ kMaxRequestSize := by omega
    exact (frameDone_complete
      (FrameState.mk (s.buffer ++ chunk) true s.header_end s.content_length) he t.length
      rfl hh hsum hsmall).trans List.length_eq_zero

theorem flatten_ne_nil (reads : List (List Char)) (hne : reads ≠ [])
    (hchunks : ∀ c ∈ reads, c ≠ []) : reads.flatten ≠ [] := by
  cases reads with
  | nil => exact absurd rfl hne
  | cons c cs =>
    have hc := hchunks c (List.mem_cons_self _ _)
    simp [hc]

/-- The receive loop on a stream with one Content-Length header that declares the
length of the body, delivered in non-empty reads: the loop is left right after the
read that completes the stream, with the whole stream in the buffer, and does not
look at what arrives later. -/
theorem recvLoop_whole (stream h : List Char) (he : Nat)
    (hfind : findSub CRLFCRLF stream = some he)
    (hone : contentLengthHeaders stream = [h])
    (hbody : he + 4 + declaredLength h = stream.length)
    (hsize : stream.length ≤ kMaxRequestSize)
    (extra reads : List (List Char)) :
    ∀ s : FrameState, framingOk he (declaredLength h) s → (∀ c ∈ reads, c ≠ []) →
      s.buffer ++ reads.flatten = stream → reads ≠ [] →
      (recvLoop (reads ++ extra) s).buffer = stream
      ∧ frameDone (recvLoop (reads ++ extra) s) = true := by
  induction reads with
  | nil =>
    intro s _ _ _ hne
    exact absurd rfl hne
  | cons chunk rest ih =>
    intro s hinv hchunks hflat _
    have hchunk : chunk ≠ [] := hchunks chunk (List.mem_cons_self _ _)
    have hrestc : ∀ c ∈ rest, c ≠ [] := fun c hc => hchunks c (List.mem_cons_of_mem _ hc)
    have hsplit : s.buffer ++ chunk ++ rest.flatten = stream := by
      rw [← hflat]
      simp
    have hlt : s.buffer.length < kMaxRequestSize := by
      have h1 := congrArg List.length hsplit
      simp only [List.length_append] at h1
      have h2 : 0 < chunk.length := List.length_pos.mpr hchunk
      omega
    obtain ⟨hinv1, hdone⟩ := frameHeaders_step stream h he hfind hone hbody hsize s chunk
      rest.flatten hinv hsplit
    rw [List.cons_append, recvLoop, if_pos hlt, if_neg hchunk]
    simp only
    by_cases hrest : rest = []
    · have hd : frameDone (frameHeaders { s with buffer := s.buffer ++ chunk }) = true :=
        hdone.mpr (by rw [hrest]; rfl)
      rw [if_pos hd]
      refine ⟨?_, hd⟩
      rw [frameHeaders_buffer, ← hsplit, hrest]
      simp
    · have hd : ¬ frameDone (frameHeaders { s with buffer := s.buffer ++ chunk }) = true :=
        fun hx => flatten_ne_nil rest hrest hrestc (hdone.mp hx)
      rw [if_neg hd]
      apply ih _ hinv1 hrestc _ hrest
      rw [frameHeaders_buffer]
      exact hsplit

/-- While a part of the stream is outstanding the receive loop has not stopped:
the buffer holds the reads made so far and the test that leaves the loop fails. -/
theorem recvLoop_part (stream h : List Char) (he : Nat)
    (hfind : findSub CRLFCRLF stream = some he)
    (hone : contentLengthHeaders stream = [h])
    (hbody : he + 4 + declaredLength h = stream.length)
    (hsize : stream.length ≤ kMaxRequestSize)
    (reads : List (List Char)) :
    ∀ (s : FrameState) (t : List Char), framingOk he (declaredLength h) s →
      (∀ c ∈ reads, c ≠ []) → s.buffer ++ reads.flatten ++ t = stream → t ≠ [] →
      frameDone s = false →
      (recvLoop reads s).buffer = s.buffer ++ reads.flatten
      ∧ frameDone (recvLoop reads s) = false := by
  induction reads with
  | nil =>
    intro s t _ _ _ _ hd
    exact ⟨by simp [recvLoop], hd⟩
  | cons chunk rest ih =>
    intro s t hinv hchunks hflat ht _
    have hchunk : chunk ≠ [] := hchunks chunk (List.mem_cons_self _ _)
    have hrestc : ∀ c ∈ rest, c ≠ [] := fun c hc => hchunks c (List.mem_cons_of_mem _ hc)
    have hsplit : s.buffer ++ chunk ++ (rest.flatten ++ t) = stream := by
      rw [← hflat]
      simp
    have hlt : s.buffer.length < kMaxRequestSize := by
      have h1 := congrArg List.length hsplit
      simp only [List.length_append] at h1
      have h2 : 0 < chunk.length := List.length_pos.mpr hchunk
      omega
    obtain ⟨hinv1, hdone⟩ := frameHeaders_step stream h he hfind hone hbody hsize s chunk
      (rest.flatten ++ t) hinv hsplit
    have hd : ¬ frameDone (frameHeaders { s with buffer := s.buffer ++ chunk }) = true := by
      intro hx
      have := hdone.mp hx
      simp [ht] at this
    rw [recvLoop, if_pos hlt, if_neg hchunk]
    simp only
    rw [if_neg hd]
    have hb : (frameHeaders { s with buffer := s.buffer ++ chunk }).buffer
        = s.buffer ++ chunk := frameHeaders_buffer _
    have := ih _ t hinv1 hrestc (by rw [hb, ← hsplit]; simp) ht (by simpa using hd)
    rw [hb] at this
    simpa using this

theorem bodyOf_length (stream : List Char) (he : Nat)
    (hfind : findSub CRLFCRLF stream = some he) :
    he + 4 + (bodyOf stream).length = stream.length := by
  have h4 := (take_header_block stream he hfind).2
  unfold bodyOf
  simp only [hfind]
  rw [if_pos h4, List.length_drop]
  omega

/-- Claim C22.  Framing is independent of chunking.  Take a request byte stream of at
most 8192 bytes that contains the header terminator, has exactly one header line
`h` read as a Content-Length header, and whose body after the terminator is as long
as `h` declares.  However the stream is delivered as successive non-empty reads of
at most 1024 bytes, the receive loop of `HandleClient` is left with the buffer
equal to the whole stream, whatever arrives afterwards; it is not left earlier
(after any smaller number of reads the buffer holds just those reads and the test
that leaves the loop fails); so two ways of splitting the stream give the same
response and the same statics. -/
theorem framing_independent_of_chunking (stream h : List Char)
    (reads reads2 extra extra2 : List (List Char)) (now : Int) (st : ServerState)
    (hterm : CRLFCRLF <:+: stream)
    (hsize : stream.length ≤ kMaxRequestSize)
    (hone : contentLengthHeaders stream = [h])
    (hbody : declaredLength h = (bodyOf stream).length)
    (hflat : reads.flatten = stream)
    (hchunks : ∀ chunk ∈ reads, chunk ≠ [] ∧ chunk.length ≤ 1024)
    (hflat2 : reads2.flatten = stream)
    (hchunks2 : ∀ chunk ∈ reads2, chunk ≠ [] ∧ chunk.length ≤ 1024) :
    recvRequest (reads ++ extra) = stream
    ∧ frameDone (recvLoop (reads ++ extra) FrameState.init) = true
    ∧ (∀ k, k < reads.length →
        recvRequest (reads.take k) = (reads.take k).flatten
        ∧ frameDone (recvLoop (reads.take k) FrameState.init) = false)
    ∧ HandleClient (reads ++ extra) now st = HandleClient (reads2 ++ extra2) now st := by
  obtain ⟨he, hfind⟩ := findSub_of_isInfix _ _ hterm
  have hlen : he + 4 + declaredLength h = stream.length := by
    rw [hbody]
    exact bodyOf_length stream he hfind
  have hinit : framingOk he (declaredLength h) FrameState.init := Or.inl ⟨rfl, rfl⟩
  have hpos : stream ≠ [] := by
    intro e
    rw [e] at hlen
    simp at hlen
  have hwhole : ∀ rs ex : List (List Char), rs.flatten = stream → (∀ c ∈ rs, c ≠ []) →
      (recvLoop (rs ++ ex) FrameState.init).buffer = stream
      ∧ frameDone (recvLoop (rs ++ ex) FrameState.init) = true := by
    intro rs ex hf hc
    have hne : rs ≠ [] := by
      intro e
      rw [e] at hf
      exact hpos hf.symm
    exact recvLoop_whole stream h he hfind hone hlen hsize ex rs FrameState.init hinit hc
      (by simpa [FrameState.init] using hf) hne
  have h1 := hwhole reads extra hflat (fun c hc => (hchunks c hc).1)
  have h2 := hwhole reads2 extra2 hflat2 (fun c hc => (hchunks2 c hc).1)
  refine ⟨h1.1, h1.2, ?_, ?_⟩
  · intro k hk
    have hdrop : reads.drop k ≠ [] := by
      intro e
      have := congrArg List.length e
      rw [List.length_drop] at this
      simp only [List.length_nil] at this
      omega
    have ht : (reads.drop k).flatten ≠ [] :=
      flatten_ne_nil _ hdrop (fun c hc => (hchunks c (List.mem_of_mem_drop hc)).1)
    have hsplit : FrameState.init.buffer ++ (reads.take k).flatten ++ (reads.drop k).flatten
        = stream := by
      have e : (reads.take k).flatten ++ (reads.drop k).flatten = reads.flatten := by
        rw [← List.flatten_append, List.take_append_drop]
      rw [← hflat, ← e]
      simp [FrameState.init]
    have := recvLoop_part stream h he hfind hone hlen hsize (reads.take k) FrameState.init
      _ hinit (fun c hc => (hchunks c (List.mem_of_mem_take hc)).1) hsplit ht rfl
    refine ⟨?_, this.2⟩
    rw [recvRequest_eq, this.1]
    simp [FrameState.init]
  · unfold HandleClient
    rw [recvRequest_eq, recvRequest_eq, h1.1, h2.1]

theorem framing_independent_of_chunking_witness :
    recvRequest (threeReads ++ [hello]) = framedPost
    ∧ HandleClient (threeReads ++ [hello]) 0 runningOpen
        = HandleClient [framedPost] 0 runningOpen :=
  have h := framing_independent_of_chunking framedPost contentLength16Line
    threeReads [framedPost] [hello] [] 0 runningOpen
    (by decide!) (by decide!) (by decide!) (by decide!) (by decide!) (by decide!)
    (by decide!) (by decide!)
  ⟨h.1, h.2.2.2⟩

/-! ## Requests the receive loop does not take in whole -/

theorem recvLoop_buffer_isPrefix (reads : List (List Char)) :
    ∀ s : FrameState, (recvLoop reads s).buffer <+: s.buffer ++ reads.flatten := by
  induction reads with
  | nil =>
    intro s
    simp [recvLoop]
  | cons chunk rest ih =>
    intro s
    unfold recvLoop
    by_cases h1 : s.buffer.length < kMaxRequestSize
    · rw [if_pos h1]
      by_cases h2 : chunk = []
      · rw [if_pos h2]
        exact List.prefix_append _ _
      · rw [if_neg h2]
        simp only
        have hb : (frameHeaders { s with buffer := s.buffer ++ chunk }).buffer
            = s.buffer ++ chunk := frameHeaders_buffer _
        have e : s.buffer ++ (chunk :: rest).flatten = s.buffer ++ chunk ++ rest.flatten := by
          simp
        split_ifs
        · rw [hb, e]
          exact List.prefix_append _ _
        · have := ih (frameHeaders { s with buffer := s.buffer ++ chunk })
          rw [hb] at this
          rw [e]
          exact this
    · rw [if_neg h1]
      exact List.prefix_append _ _

theorem recvLoop_length_ge (reads : List (List Char)) :
    ∀ s : FrameState, s.buffer.length ≤ (recvLoop reads s).buffer.length := by
  induction reads with
  | nil =>
    intro s
    simp [recvLoop]
  | cons chunk rest ih =>
    intro s
    unfold recvLoop
    have hb : (frameHeaders { s with buffer := s.buffer ++ chunk }).buffer.length
        = s.buffer.length + chunk.length := by
      rw [frameHeaders_buffer]
      simp
    by_cases h1 : s.buffer.length < kMaxRequestSize
    · rw [if_pos h1]
      by_cases h2 : chunk = []
      · rw [if_pos h2]
      · rw [if_neg h2]
        simp only
        by_cases h3 : frameDone (frameHeaders { s with buffer := s.buffer ++ chunk }) = true
        · rw [if_pos h3]
          omega
        · rw [if_neg h3]
          have := ih (frameHeaders { s with buffer := s.buffer ++ chunk })
          omega
    · rw [if_neg h1]

theorem recvLoop_length_gt (chunk : List Char) (rest : List (List Char)) (s : FrameState)
    (h : chunk ≠ []) (hlt : s.buffer.length < kMaxRequestSize) :
    s.buffer.length < (recvLoop (chunk :: rest) s).buffer.length := by
  have hpos : 0 < chunk.length := List.length_pos.mpr h
  have hb : (frameHeaders { s with buffer := s.buffer ++ chunk }).buffer.length
      = s.buffer.length + chunk.length := by
    rw [frameHeaders_buffer]
    simp
  rw [recvLoop, if_pos hlt, if_neg h]
  simp only
  by_cases h3 : frameDone (frameHeaders { s with buffer := s.buffer ++ chunk }) = true
  · rw [if_pos h3]
    omega
  · rw [if_neg h3]
    have := recvLoop_length_ge rest (frameHeaders { s with buffer := s.buffer ++ chunk })
    omega

theorem recvRequest_ne_nil (chunk : List Char) (rest : List (List Char)) (h : chunk ≠ []) :
    recvRequest (chunk :: rest) ≠ [] := by
  have hgt := recvLoop_length_gt chunk rest FrameState.init h (by decide)
  intro e
  rw [recvRequest_eq] at e
  rw [e] at hgt
  simp at hgt

theorem HandleClient_no_terminator (reads : List (List Char)) (now : Int) (st : ServerState)
    (hne : recvRequest reads ≠ []) (hterm : ¬ CRLFCRLF <:+: recvRequest reads) :
    HandleClient reads now st =
      (some { code := 400, body := bodyBadRequest, content_type := applicationJson }, st) := by
  unfold HandleClient parseRequest
  rw [if_neg hne, findSub_eq_none _ _ hterm]

/-- A stream whose first 8191 + 1024 bytes hold no header terminator is answered
`400 bad request` however it is delivered in non-empty reads of at most 1024
bytes: the receive loop stops reading before the terminator arrives. -/
theorem unterminated_prefix_rejected (reads : List (List Char)) (p q : List Char)
    (now : Int) (st : ServerState)
    (hflat : reads.flatten = p ++ q)
    (hchunks : ∀ chunk ∈ reads, chunk ≠ [] ∧ chunk.length ≤ 1024)
    (hp : ¬ CRLFCRLF <:+: p)
    (hlen : kMaxRequestSize - 1 + 1024 ≤ p.length) :
    HandleClient reads now st =
      (some { code := 400, body := bodyBadRequest, content_type := applicationJson }, st) := by
  have hpre : recvRequest reads <+: p := by
    have h1 := recvLoop_buffer_isPrefix reads FrameState.init
    have h2 := recvLoop_length_le reads FrameState.init (fun c hc => (hchunks c hc).2)
      (by decide)
    rw [hflat] at h1
    have h3 : (recvLoop reads FrameState.init).buffer <+: p ++ q := by
      simpa [FrameState.init] using h1
    rw [recvRequest_eq]
    exact List.prefix_of_prefix_length_le h3 (List.prefix_append p q) (by omega)
  apply HandleClient_no_terminator
  · cases reads with
    | nil =>
      have : (p ++ q).length = 0 := by rw [← hflat]; rfl
      rw [List.length_append] at this
      have hk : kMaxRequestSize = 8192 := rfl
      omega
    | cons chunk rest =>
      exact recvRequest_ne_nil chunk rest (hchunks chunk (List.mem_cons_self _ _)).1
  · intro h
    exact hp (h.trans hpre.isInfix)

/-! ## A header line longer than the receive loop reads -/

theorem fill_append (n m : Nat) : fill n ++ fill m = fill (n + m) := by
  unfold fill
  exact List.append_replicate_replicate

theorem longKeyHead_length : longKeyHead.length = 45 := by decide

theorem findSub_longKeyHead (n : Nat) : findSub CRLFCRLF (longKeyHead ++ fill n) = none := by
  have h := findSub_fill n
  simp [longKeyHead, stateRequestLine, hostLine, headerLines, xApiKey, GET, pathState,
    CRLFCRLF, findSub, List.isPrefixOf] at h ⊢
  exact h

theorem isApiKeyLine_longKeyLine : isApiKeyLine longKeyLine = true := by
  have e : longKeyLine = xApiKey ++ ':' :: (' ' :: fill 9171) := by
    simp [longKeyLine]
  rw [e]
  unfold isApiKeyLine
  rw [findChar_append_cons ':' xApiKey _ (by decide)]
  simp only [List.take_left']
  decide

theorem longKeyReads_split :
    longKeyReads.flatten = (longKeyHead ++ fill 9170) ++ (fill 1 ++ CRLFCRLF) := by
  have e1 : fill 9170 = fill 979 ++ (fill 1024 ++ (fill 1024 ++ (fill 1024 ++ (fill 1024
      ++ (fill 1024 ++ (fill 1024 ++ (fill 1024 ++ fill 1023))))))) := by
    simp only [fill_append]
  have e2 : fill 1023 ++ (fill 1 ++ CRLFCRLF) = fill 1024 ++ CRLFCRLF := by
    rw [← List.append_assoc, fill_append]
  rw [e1]
  unfold longKeyReads
  simp only [List.flatten_cons, List.flatten_nil, List.append_assoc, List.append_nil]
  rw [e2]

theorem longKeyReads_flatten :
    longKeyReads.flatten = buildRequest stateRequestLine [hostLine, longKeyLine] [] := by
  have e : fill 9170 ++ fill 1 = fill 9171 := fill_append _ _
  rw [longKeyReads_split]
  unfold longKeyLine
  rw [← e]
  simp [longKeyHead, buildRequest, headerLines]

theorem longKeyReads_lengths :
    longKeyReads.map List.length = [1024, 1024, 1024, 1024, 1024, 1024, 1024, 1024, 1024, 4] := by
  simp [longKeyReads, fill_length, longKeyHead_length, CRLFCRLF]

theorem recvLoop_no_terminator_step (chunk : List Char) (rest : List (List Char))
    (buffer whole : List Char) (header_end : Option Nat)
    (hlt : buffer.length < kMaxRequestSize) (hne : chunk ≠ [])
    (hb : buffer ++ chunk = whole) (hnone : findSub CRLFCRLF whole = none) :
    recvLoop (chunk :: rest) (FrameState.mk buffer false header_end 0) =
      recvLoop rest (FrameState.mk whole false none 0) := by
  rw [recvLoop, if_pos hlt, if_neg hne]
  simp only [hb, frameHeaders, hnone, frameDone, Bool.false_eq_true, if_false]

theorem recvLoop_longKey (n m k : Nat) (rest : List (List Char)) (header_end : Option Nat)
    (hn : 45 + n < kMaxRequestSize) (hm : 0 < m) (hk : n + m = k) :
    recvLoop (fill m :: rest) (FrameState.mk (longKeyHead ++ fill n) false header_end 0) =
      recvLoop rest (FrameState.mk (longKeyHead ++ fill k) false none 0) := by
  have hne : fill m ≠ [] := by
    intro e
    have h0 : (fill m).length = 0 := by rw [e]; rfl
    rw [fill_length] at h0
    omega
  have hlt : (longKeyHead ++ fill n).length < kMaxRequestSize := by
    rw [List.length_append, longKeyHead_length, fill_length]
    exact hn
  have happ : longKeyHead ++ fill n ++ fill m = longKeyHead ++ fill k := by
    rw [List.append_assoc, fill_append, hk]
  rw [recvLoop, if_pos hlt, if_neg hne]
  simp only [happ, frameHeaders, findSub_longKeyHead, frameDone, Bool.false_eq_true, if_false]

theorem recvRequest_longKeyReads : recvRequest longKeyReads = longKeyHead ++ fill 8147 := by
  have h0 : FrameState.init = FrameState.mk [] false none 0 := rfl
  have hne : longKeyHead ++ fill 979 ≠ [] := by
    intro e
    have h1 : (longKeyHead ++ fill 979).length = 0 := by rw [e]; rfl
    rw [List.length_append, longKeyHead_length] at h1
    omega
  have hfirst : ∀ rest,
      recvLoop ((longKeyHead ++ fill 979) :: rest) (FrameState.mk [] false none 0)
      = recvLoop rest (FrameState.mk (longKeyHead ++ fill 979) false none 0) := fun rest =>
    recvLoop_no_terminator_step _ rest [] _ none (by decide) hne (List.nil_append _)
      (findSub_longKeyHead 979)
  have hfull : ¬ (longKeyHead ++ fill 8147).length < kMaxRequestSize := by
    rw [List.length_append, longKeyHead_length, fill_length]
    decide
  rw [recvRequest_eq, h0, longKeyReads, hfirst,
    recvLoop_longKey 979 1024 2003 _ _ (by decide) (by decide) rfl,
    recvLoop_longKey 2003 1024 3027 _ _ (by decide) (by decide) rfl,
    recvLoop_longKey 3027 1024 4051 _ _ (by decide) (by decide) rfl,
    recvLoop_longKey 4051 1024 5075 _ _ (by decide) (by decide) rfl,
    recvLoop_longKey 5075 1024 6099 _ _ (by decide) (by decide) rfl,
    recvLoop_longKey 6099 1024 7123 _ _ (by decide) (by decide) rfl,
    recvLoop_longKey 7123 1024 8147 _ _ (by decide) (by decide) rfl,
    recvLoop, if_neg hfull]

/-- Claim C10, counterexample.  With an empty secret the request `GET /v1/state` with
the header `Host: mm` is answered `200` with the body `{}`.  The request that
differs from it only in one more header line, `x-api-key: aaa...a` with a value of
9171 bytes, delivered in nine reads of 1024 bytes and one of 4 bytes, is answered
`400 bad request`: after eight reads the buffer holds 8192 bytes, the receive
loop stops, and the buffer has no header terminator. -/
theorem long_key_line_changes_response :
    runningOpen.sApiKey = []
    ∧ [hostLine, longKeyLine].filter (fun h => !isApiKeyLine h)
        = [hostLine].filter (fun h => !isApiKeyLine h)
    ∧ longKeyReads.flatten = buildRequest stateRequestLine [hostLine, longKeyLine] []
    ∧ longKeyReads.map List.length
        = [1024, 1024, 1024, 1024, 1024, 1024, 1024, 1024, 1024, 4]
    ∧ (recvRequest longKeyReads).length = 8192
    ∧ findSub CRLFCRLF (recvRequest longKeyReads) = none
    ∧ (HandleClient [buildRequest stateRequestLine [hostLine] []] 0 runningOpen).1 =
        some { code := 200, body := emptyObject, content_type := applicationJson }
    ∧ (HandleClient longKeyReads 0 runningOpen).1 =
        some { code := 400, body := bodyBadRequest, content_type := applicationJson } := by
  refine ⟨rfl, ?_, longKeyReads_flatten, longKeyReads_lengths, ?_, ?_, by decide, ?_⟩
  · have h1 : isApiKeyLine hostLine = false := by decide
    simp [List.filter, h1, isApiKeyLine_longKeyLine]
  · rw [recvRequest_longKeyReads, List.length_append, longKeyHead_length, fill_length]
  · rw [recvRequest_longKeyReads]
    exact findSub_longKeyHead _
  · have hne : recvRequest longKeyReads ≠ [] := by
      intro e
      have h1 : (recvRequest longKeyReads).length = 0 := by rw [e]; rfl
      rw [recvRequest_longKeyReads, List.length_append, longKeyHead_length] at h1
      omega
    have hterm : ¬ CRLFCRLF <:+: recvRequest longKeyReads := by
      intro h
      obtain ⟨k, hk⟩ := findSub_of_isInfix _ _ h
      rw [recvRequest_longKeyReads, findSub_longKeyHead] at hk
      exact absurd hk (by simp)
    rw [HandleClient_no_terminator longKeyReads 0 runningOpen hne hterm]

/-! ## Auth disabled -/

/-- Claim C10, as amended.  With an empty secret configured no request is answered
401, and two requests with the same request line and the same body whose header
lines differ only in lines read as `x-api-key` headers (present or not, with any
value), both taken in whole by the receive loop, get the same response and leave
the same statics, queue and snapshot among them.  This part is stated twice: for
any two received buffers in which `HandleClient` reads the same request line and
the same body, and for requests written out as request line, header lines,
terminator and body.  A request that is not taken in whole is treated otherwise:
a stream without header terminator in its first 8191 + 1024 bytes (an `x-api-key`
line of that length is enough) is answered `400 bad request`, however it is
delivered in non-empty reads of at most 1024 bytes. -/
theorem auth_disabled_ignores_key (now : Int) (st : ServerState) (hsecret : st.sApiKey = []) :
    (∀ reads r, (HandleClient reads now st).1 = some r → r.code ≠ 401)
    ∧ (∀ reads1 reads2,
        CRLFCRLF <:+: recvRequest reads1 → CRLFCRLF <:+: recvRequest reads2 →
        requestLineOf (recvRequest reads1) = requestLineOf (recvRequest reads2) →
        bodyOf (recvRequest reads1) = bodyOf (recvRequest reads2) →
        HandleClient reads1 now st = HandleClient reads2 now st)
    ∧ (∀ reads1 reads2 request_line hs1 hs2 body,
        recvRequest reads1 = buildRequest request_line hs1 body →
        recvRequest reads2 = buildRequest request_line hs2 body →
        '\n' ∉ request_line →
        (∀ h ∈ hs1, h ≠ [] ∧ '\n' ∉ h) → (∀ h ∈ hs2, h ≠ [] ∧ '\n' ∉ h) →
        hs1.filter (fun h => !isApiKeyLine h) = hs2.filter (fun h => !isApiKeyLine h) →
        HandleClient reads1 now st = HandleClient reads2 now st)
    ∧ (∀ reads p q,
        reads.flatten = p ++ q →
        (∀ chunk ∈ reads, chunk ≠ [] ∧ chunk.length ≤ 1024) →
        ¬ CRLFCRLF <:+: p → kMaxRequestSize - 1 + 1024 ≤ p.length →
        HandleClient reads now st =
          (some { code := 400, body := bodyBadRequest, content_type := applicationJson },
           st)) := by
  refine ⟨?_, ?_, ?_, ?_⟩
  · intro reads r hr
    unfold HandleClient at hr
    cases hp : parseRequest (recvRequest reads) with
    | noData => simp [hp] at hr
    | badRequest =>
      simp only [hp, Prod.mk.injEq, Option.some.injEq] at hr
      rw [← hr]
      decide
    | ok req =>
      simp only [hp, Option.some.injEq] at hr
      rw [← hr]
      exact dispatch_code_no_secret req now st hsecret
  · intro reads1 reads2 ht1 ht2 hline hbody
    unfold HandleClient
    rw [parseRequest_of_terminator _ ht1, parseRequest_of_terminator _ ht2, hline, hbody]
    cases ParseRequestLine (requestLineOf (recvRequest reads2)) with
    | none => rfl
    | some mp =>
      simp only
      rw [← dispatch_no_secret _ now st hsecret [],
        ← dispatch_no_secret
          { method := mp.1, path := mp.2,
            api_key_header := apiKeyHeaderOf (recvRequest reads2),
            body := bodyOf (recvRequest reads2) } now st hsecret []]
  · intro reads1 reads2 request_line hs1 hs2 body h1 h2 hnl hwf1 hwf2 _
    unfold HandleClient
    rw [h1, h2, parseRequest_buildRequest request_line hs1 body hnl hwf1,
      parseRequest_buildRequest request_line hs2 body hnl hwf2]
    cases ParseRequestLine request_line with
    | none => rfl
    | some mp =>
      simp only
      rw [← dispatch_no_secret _ now st hsecret [],
        ← dispatch_no_secret
          { method := mp.1, path := mp.2,
            api_key_header :=
              apiKeyLoop ((headerStream (request_line ++ headerLines hs2)).length + 1)
                (headerStream (request_line ++ headerLines hs2)) []
            body := body } now st hsecret []]
  · intro reads p q hflat hchunks hp hlen
    exact unterminated_prefix_rejected reads p q now st hflat hchunks hp hlen

theorem auth_disabled_ignores_key_witness :
    HandleClient [buildRequest stateRequestLine [hostLine, wrongKeyLine] []] 0 runningOpen =
      HandleClient [buildRequest stateRequestLine [hostLine] []] 0 runningOpen
    ∧ (HandleClient [buildRequest stateRequestLine [hostLine, wrongKeyLine] []] 0
        runningOpen).1 =
      some { code := 200, body := emptyObject, content_type := applicationJson } :=
  ⟨(auth_disabled_ignores_key 0 runningOpen rfl).2.2.1
      [buildRequest stateRequestLine [hostLine, wrongKeyLine] []]
      [buildRequest stateRequestLine [hostLine] []]
      stateRequestLine [hostLine, wrongKeyLine] [hostLine] []
      (by decide) (by decide) (by decide) (by decide) (by decide) (by decide),
   by decide⟩

end HttpBridge
